import Mathlib

/-
Verification of the event-aggregation core of gotest-report
(function processTestEvents in main.go).

The embedding models Go timestamps and elapsed values as rationals;
the Go zero time (time.Time zero value, produced by a missing Time
field and tested with IsZero) is modelled by the rational 0.  Go maps
are modelled as insertion-ordered association lists with unique keys;
the final counting loop and the output flush loop are order
independent, so a fixed iteration order is a faithful representative
of Go's unspecified map order.
-/

namespace GoTestReport


def hasSlash (s : String) : Bool := s.toList.contains '/'

/-- Model of the Go expression s[:strings.LastIndex(s, "/")]: the
characters strictly before the last separator. -/
def parentOf (s : String) : String :=
  String.mk (((s.toList.reverse.dropWhile (fun c => c ≠ '/')).drop 1).reverse)

/-- Model of strings.TrimSuffix(s, "\n"): strip one trailing newline. -/
def trimNewline (s : String) : String :=
  match s.toList.reverse with
  | [] => s
  | c :: rest => if c = '\n' then String.mk rest.reverse else s

/-- Association-list lookup, modelling Go map indexing. -/
def lookupA {α : Type} : List (String × α) → String → Option α
  | [], _ => none
  | kv :: rest, k => if k = kv.1 then some kv.2 else lookupA rest k

/-- Update the value at a key in place (no-op when the key is absent),
modelling mutation through a map-stored pointer. -/
def updateA {α : Type} (m : List (String × α)) (k : String) (f : α → α) :
    List (String × α) :=
  m.map (fun kv => if kv.1 = k then (kv.1, f kv.2) else kv)

/-- Map assignment m[k] = v: overwrite in place or append a new binding. -/
def setA {α : Type} (m : List (String × α)) (k : String) (v : α) :
    List (String × α) :=
  if (lookupA m k).isSome then updateA m k (fun _ => v) else m ++ [(k, v)]

/-- TestEvent from main.go: one decoded line of go test -json output. -/
structure TestEvent where
  time : ℚ
  action : String
  test : String
  package : String
  output : String
  elapsed : ℚ
deriving DecidableEq

/-- TestResult from main.go: the aggregated record for one test name. -/
structure TestResult where
  name : String
  package : String
  status : String
  duration : ℚ
  output : List String
  parentTest : String
  subTests : List String
  isSubTest : Bool
deriving DecidableEq

/-- ReportData from main.go. -/
structure ReportData where
  totalTests : Nat
  passedTests : Nat
  failedTests : Nat
  skippedTests : Nat
  totalDuration : ℚ
  results : List (String × TestResult)
  sortedTestNames : List String
deriving DecidableEq

/-- Aggregation state of processTestEvents: the results map plus the
output buffer and the run start-time map. -/
structure AggState where
  results : List (String × TestResult)
  testOutputMap : List (String × List String)
  testStartTime : List (String × ℚ)
deriving DecidableEq

def initState : AggState := { results := [], testOutputMap := [], testStartTime := [] }

/-- Go map lookup testStartTime[name] followed by IsZero: an absent key
yields the zero time, modelled as 0. -/
def startTimeOf (st : AggState) (n : String) : ℚ :=
  (lookupA st.testStartTime n).getD 0

def isCreatingAction (a : String) : Prop :=
  a = "run" ∨ a = "pass" ∨ a = "fail" ∨ a = "skip"

instance (a : String) : Decidable (isCreatingAction a) := by
  unfold isCreatingAction; infer_instance

/-- The zero-initialised TestResult literal built at entry creation. -/
def freshResult (n pkg : String) : TestResult :=
  { name := n, package := pkg, status := "UNKNOWN", duration := 0,
    output := [], parentTest := "", subTests := [], isSubTest := hasSlash n }

/-- Entry creation on first sight of a name for run/pass/fail/skip,
including the subtest parent synthesis and child linking
(main.go lines 351-379). -/
def creationStep (st : AggState) (e : TestEvent) : AggState :=
  if (lookupA st.results e.test).isNone ∧ isCreatingAction e.action then
    if hasSlash e.test then
      let p := parentOf e.test
      let m1 := setA st.results e.test { freshResult e.test e.package with parentTest := p }
      let m2 := if (lookupA m1 p).isNone then setA m1 p (freshResult p e.package) else m1
      let m3 := updateA m2 p (fun pr => { pr with subTests := pr.subTests ++ [e.test] })
      { st with results := m3 }
    else
      { st with results := setA st.results e.test (freshResult e.test e.package) }
  else st

/-- Duration resolution applied by the pass and fail handlers
(main.go lines 387-399). -/
def resolveDuration (st : AggState) (e : TestEvent) (old : ℚ) : ℚ :=
  if 0 < e.elapsed then e.elapsed
  else if startTimeOf st e.test ≠ 0 then e.time - startTimeOf st e.test
  else old

/-- Action dispatch of processTestEvents (main.go lines 381-414). -/
def actionStep (st : AggState) (e : TestEvent) : AggState :=
  if e.action = "run" then
    { st with testStartTime := setA st.testStartTime e.test e.time }
  else if e.action = "pass" then
    { st with results := updateA st.results e.test (fun r =>
        { r with status := "PASS", duration := resolveDuration st e r.duration }) }
  else if e.action = "fail" then
    { st with results := updateA st.results e.test (fun r =>
        { r with status := "FAIL", duration := resolveDuration st e r.duration }) }
  else if e.action = "skip" then
    { st with results := updateA st.results e.test (fun r => { r with status := "SKIP" }) }
  else if e.action = "output" then
    let prev := (lookupA st.testOutputMap e.test).getD []
    let s := trimNewline e.output
    let om := setA st.testOutputMap e.test (if s = "" then prev else prev ++ [s])
    { st with testOutputMap := om }
  else st

/-- Processing of one decoded event: package-scoped events (empty test
name) are skipped, then entry creation, then action dispatch. -/
def stepEvent (st : AggState) (e : TestEvent) : AggState :=
  if e.test = "" then st else actionStep (creationStep st e) e

/-- The state after the scan loop has consumed a list of decoded events. -/
def runPhase (es : List TestEvent) : AggState :=
  es.foldl stepEvent initState

/-- One input line: either a line that decodes to an event or a line on
which json.Unmarshal fails with the given message. -/
inductive InputLine where
  | ok : TestEvent → InputLine
  | bad : String → InputLine
deriving DecidableEq

/-- The scan loop: a decode failure aborts with the wrapped error
(main.go lines 338-343). -/
def scanLines (st : AggState) : List InputLine → Except String AggState
  | [] => Except.ok st
  | InputLine.bad msg :: _ => Except.error ("error unmarshalling JSON: " ++ msg)
  | InputLine.ok e :: rest => scanLines (stepEvent st e) rest

/-- Flush of the buffered output onto matching result entries
(main.go lines 422-426). -/
def flushOutputs (m : List (String × TestResult)) (om : List (String × List String)) :
    List (String × TestResult) :=
  om.foldl (fun acc kv => updateA acc kv.1 (fun r => { r with output := kv.2 })) m

def charLe : List Char → List Char → Bool
  | [], _ => true
  | _ :: _, [] => false
  | a :: as, b :: bs =>
    if a.toNat < b.toNat then true
    else if b.toNat < a.toNat then false
    else charLe as bs

def strLeB (a b : String) : Bool := charLe a.toList b.toList

def insertSorted (s : String) : List String → List String
  | [] => [s]
  | t :: ts => if strLeB s t then s :: t :: ts else t :: insertSorted s ts

/-- Model of sort.Strings. -/
def sortStrings (l : List String) : List String := l.foldr insertSorted []

/-- One step of the root-only counting loop (main.go lines 432-449). -/
def countFold (rd : ReportData) (kv : String × TestResult) : ReportData :=
  if kv.2.isSubTest then rd
  else
    let rd1 := { rd with
      sortedTestNames := rd.sortedTestNames ++ [kv.1],
      totalTests := rd.totalTests + 1,
      totalDuration := rd.totalDuration + kv.2.duration }
    if kv.2.status = "PASS" then { rd1 with passedTests := rd1.passedTests + 1 }
    else if kv.2.status = "FAIL" then { rd1 with failedTests := rd1.failedTests + 1 }
    else if kv.2.status = "SKIP" then { rd1 with skippedTests := rd1.skippedTests + 1 }
    else rd1

/-- Finalisation: flush buffered output, count root tests, sort the
root name list (main.go lines 421-453). -/
def finalize (st : AggState) : ReportData :=
  let res := flushOutputs st.results st.testOutputMap
  let base : ReportData :=
    ⟨0, 0, 0, 0, 0, res, []⟩
  let rd := res.foldl countFold base
  { rd with sortedTestNames := sortStrings rd.sortedTestNames }

/-- processTestEvents: scan all lines, abort on the first decode
failure, otherwise finalise the aggregation state. -/
def processTestEvents (lines : List InputLine) : Except String ReportData :=
  (scanLines initState lines).map finalize

/-- The final results mapping for a fully decoded stream. -/
def aggregateReport (es : List TestEvent) : ReportData :=
  finalize (runPhase es)

def aggResults (es : List TestEvent) : List (String × TestResult) :=
  (aggregateReport es).results

/-- Error projection of the aggregation outcome. -/
def errOf : Except String ReportData → Option String
  | Except.error m => some m
  | Except.ok _ => none

/-
Structural invariant of the results map, maintained by every step of
the scan loop.
-/

structure ModelInv (m : List (String × TestResult)) : Prop where
  nodup : (m.map Prod.fst).Nodup
  nameEq : ∀ n r, lookupA m n = some r → r.name = n
  outNil : ∀ n r, lookupA m n = some r → r.output = []
  subFlag : ∀ n r, lookupA m n = some r → r.isSubTest = hasSlash n
  parentVal : ∀ n r, lookupA m n = some r → r.parentTest ≠ "" →
      r.parentTest = parentOf n ∧ hasSlash n = true
  parentLink : ∀ n r, lookupA m n = some r → r.parentTest ≠ "" →
      ∃ p, lookupA m (parentOf n) = some p ∧ n ∈ p.subTests
  childMem : ∀ n r, lookupA m n = some r → ∀ c, c ∈ r.subTests →
      parentOf c = n ∧ hasSlash c = true ∧ ∃ rc, lookupA m c = some rc ∧ rc.parentTest = n
  childFull : ∀ n r, lookupA m n = some r → ∀ c rc, lookupA m c = some rc →
      rc.parentTest = n → rc.parentTest ≠ "" → c ∈ r.subTests
  childNodup : ∀ n r, lookupA m n = some r → r.subTests.Nodup

/-
Stream-side characterisations: what the aggregated state should hold
in terms of the raw event list.
-/

def isTerminalFor (n : String) (e : TestEvent) : Bool :=
  if e.test = n ∧ (e.action = "pass" ∨ e.action = "fail" ∨ e.action = "skip") then true
  else false

def isRunFor (n : String) (e : TestEvent) : Bool :=
  if e.test = n ∧ e.action = "run" then true else false

def isOutputFor (n : String) (e : TestEvent) : Bool :=
  if e.test = n ∧ e.action = "output" then true else false

def statusOfAction (a : String) : String :=
  if a = "pass" then "PASS" else if a = "fail" then "FAIL" else "SKIP"

/-- The status that the last terminal (pass/fail/skip) event for a name
dictates, if any. -/
def lastTerminalStatus (es : List TestEvent) (n : String) : Option String :=
  ((es.filter (isTerminalFor n)).getLast?).map (fun e => statusOfAction e.action)

/-- The provisional start time recorded by the last run event for a
name (the Go zero time 0 when there is none). -/
def lastStartTime (es : List TestEvent) (n : String) : ℚ :=
  (((es.filter (isRunFor n)).getLast?).map TestEvent.time).getD 0

/-- The output fragments attributed to a name: arrival order, one
trailing newline stripped, empty fragments dropped. -/
def outputsFor (es : List TestEvent) (n : String) : List String :=
  (es.filter (isOutputFor n)).filterMap
    (fun e => if trimNewline e.output = "" then none else some (trimNewline e.output))

/-
Finalisation lemmas: the counting loop and the output flush.
-/

/-- Stream-side simulation of the order in which entry names are first
created: an unseen name with a run/pass/fail/skip action is appended,
followed by its parent name when that is a new subtest whose parent is
also unseen (placeholder synthesis). -/
def namesStep (names : List String) (e : TestEvent) : List String :=
  if e.test = "" then names
  else if e.test ∉ names ∧ isCreatingAction e.action then
    if hasSlash e.test then
      if parentOf e.test ∉ names then names ++ [e.test] ++ [parentOf e.test]
      else names ++ [e.test]
    else names ++ [e.test]
  else names

/-- The discovery-ordered sequence of all entry names a stream creates. -/
def createdNames (es : List TestEvent) : List String := es.foldl namesStep []

def isRootKV (kv : String × TestResult) : Bool := !kv.2.isSubTest

def rootWithStatus (s : String) (kv : String × TestResult) : Bool :=
  !kv.2.isSubTest && (kv.2.status == s)

def evRun (n : String) (t : ℚ) : TestEvent :=
  { time := t, action := "run", test := n, package := "pkg", output := "", elapsed := 0 }

def evPass (n : String) (t el : ℚ) : TestEvent :=
  { time := t, action := "pass", test := n, package := "pkg", output := "", elapsed := el }

def evFail (n : String) (t el : ℚ) : TestEvent :=
  { time := t, action := "fail", test := n, package := "pkg", output := "", elapsed := el }

def evSkip (n : String) (t : ℚ) : TestEvent :=
  { time := t, action := "skip", test := n, package := "pkg", output := "", elapsed := 0 }

def evOut (n out : String) (t : ℚ) : TestEvent :=
  { time := t, action := "output", test := n, package := "pkg", output := out, elapsed := 0 }

def c1CexInput : List TestEvent := [evRun "A/B/C" 1]

def c1WitInput : List TestEvent := [evRun "A/B" 1]

def c1WitChild : TestResult :=
  { name := "A/B", package := "pkg", status := "UNKNOWN", duration := 0,
    output := [], parentTest := "A", subTests := [], isSubTest := true }

def c2WitPre : List TestEvent := [evRun "T" 5]

def c2WitEvent : TestEvent := evPass "T" 7 0

def c3OkEvent : TestEvent := evRun "T" 1

def c6CexInput : List TestEvent := [evRun "A/B/C" 1, evRun "A/B" 2, evRun "A" 3]

def c6WitInput : List TestEvent := [evRun "A/B" 1]

def c6WitParent : TestResult :=
  { name := "A", package := "pkg", status := "UNKNOWN", duration := 0,
    output := [], parentTest := "", subTests := ["A/B"], isSubTest := false }

def c7CexInput : List TestEvent := [evRun "T" 10, evPass "T" 5 0]

def c7WitInput : List TestEvent := [evRun "T" 5, evPass "T" 7 0]

def c7WitRes : TestResult :=
  { name := "T", package := "pkg", status := "PASS", duration := 2,
    output := [], parentTest := "", subTests := [], isSubTest := false }

def c8WitInput : List TestEvent :=
  [evRun "T" 1, evOut "T" "line1\n" 2, evOut "T" "line2\n" 3, evOut "T" "\n" 4]

def c8WitRes : TestResult :=
  { name := "T", package := "pkg", status := "UNKNOWN", duration := 0,
    output := ["line1", "line2"], parentTest := "", subTests := [], isSubTest := false }

def c9WitInput : List TestEvent := [evPass "T" 1 0, evFail "T" 2 0]

def c10WitEvent : TestEvent := evSkip "T" 1

/-
Association-list lemmas.
-/

theorem lookupA_updateA {α : Type} (m : List (String × α)) (k n : String) (f : α → α) :
    lookupA (updateA m k f) n = if n = k then (lookupA m n).map f else lookupA m n := by
  induction m with
  | nil => simp [updateA, lookupA]
  | cons kv rest ih =>
    have hstep : updateA (kv :: rest) k f =
        (if kv.1 = k then (kv.1, f kv.2) else kv) :: updateA rest k f := rfl
    rw [hstep]
    by_cases hk : kv.1 = k <;> by_cases hn : n = kv.1
    · simp [lookupA, hk, hn, ih]
    · have hnk : ¬n = k := fun h => hn (h.trans hk.symm)
      simp [lookupA, hk, hn, hnk, ih]
    · simp [lookupA, hk, hn, ih]
    · simp [lookupA, hk, hn, ih]

theorem keys_updateA {α : Type} (m : List (String × α)) (k : String) (f : α → α) :
    (updateA m k f).map Prod.fst = m.map Prod.fst := by
  induction m with
  | nil => rfl
  | cons kv rest ih =>
    by_cases hk : kv.1 = k <;> simp [updateA, hk, ih] <;>
      simpa [updateA] using ih

theorem lookupA_append {α : Type} (m1 m2 : List (String × α)) (n : String) :
    lookupA (m1 ++ m2) n =
      match lookupA m1 n with
      | some v => some v
      | none => lookupA m2 n := by
  induction m1 with
  | nil => simp [lookupA]
  | cons kv rest ih =>
    by_cases hn : n = kv.1 <;> simp [lookupA, hn, ih]

theorem lookupA_none_iff {α : Type} (m : List (String × α)) (k : String) :
    lookupA m k = none ↔ k ∉ m.map Prod.fst := by
  induction m with
  | nil => simp [lookupA]
  | cons kv rest ih =>
    by_cases hn : k = kv.1 <;> simp [lookupA, hn, ih]

theorem lookupA_setA {α : Type} (m : List (String × α)) (k n : String) (v : α) :
    lookupA (setA m k v) n = if n = k then some v else lookupA m n := by
  unfold setA
  by_cases hp : (lookupA m k).isSome
  · rw [if_pos hp, lookupA_updateA]
    by_cases hn : n = k
    · subst hn
      rcases Option.isSome_iff_exists.mp hp with ⟨w, hw⟩
      simp [hw]
    · simp [hn]
  · rw [if_neg hp, lookupA_append]
    by_cases hn : n = k
    · subst hn
      have : lookupA m n = none := by
        cases h : lookupA m n with
        | none => rfl
        | some w => rw [h] at hp; simp at hp
      simp [this, lookupA]
    · cases h : lookupA m n with
      | none => simp [lookupA, hn]
      | some w => simp [lookupA, hn]

theorem keys_setA_of_present {α : Type} (m : List (String × α)) (k : String) (v : α)
    (h : (lookupA m k).isSome) : (setA m k v).map Prod.fst = m.map Prod.fst := by
  unfold setA
  rw [if_pos h, keys_updateA]

theorem keys_setA_of_absent {α : Type} (m : List (String × α)) (k : String) (v : α)
    (h : lookupA m k = none) : (setA m k v).map Prod.fst = m.map Prod.fst ++ [k] := by
  unfold setA
  rw [h]
  simp

theorem nodupKeys_setA {α : Type} (m : List (String × α)) (k : String) (v : α)
    (h : (m.map Prod.fst).Nodup) : ((setA m k v).map Prod.fst).Nodup := by
  cases hp : lookupA m k with
  | some w =>
    rw [keys_setA_of_present m k v (by simp [hp])]
    exact h
  | none =>
    rw [keys_setA_of_absent m k v hp]
    have hk : k ∉ m.map Prod.fst := (lookupA_none_iff m k).mp hp
    simp [List.nodup_append, h, hk]

theorem nodupKeys_updateA {α : Type} (m : List (String × α)) (k : String) (f : α → α)
    (h : (m.map Prod.fst).Nodup) : ((updateA m k f).map Prod.fst).Nodup := by
  rw [keys_updateA]; exact h

theorem mem_iff_lookupA {α : Type} (m : List (String × α)) (k : String) (v : α)
    (h : (m.map Prod.fst).Nodup) : (k, v) ∈ m ↔ lookupA m k = some v := by
  induction m with
  | nil => simp [lookupA]
  | cons kv rest ih =>
    simp only [List.map_cons, List.nodup_cons] at h
    by_cases hn : k = kv.1
    · constructor
      · intro hm
        rcases List.mem_cons.mp hm with h1 | h1
        · rw [← h1]; simp [lookupA]
        · exact absurd (hn ▸ List.mem_map.mpr ⟨(k, v), h1, rfl⟩) h.1
      · intro hl
        simp only [lookupA, if_pos hn] at hl
        rcases kv with ⟨k1, v1⟩
        simp only at hn
        simp only [Option.some.injEq] at hl
        subst hn
        rw [← hl]
        exact List.mem_cons_self _ _
    · simp only [lookupA, if_neg hn]
      constructor
      · intro hm
        rcases List.mem_cons.mp hm with h1 | h1
        · exact absurd (congrArg Prod.fst h1) hn
        · exact (ih h.2).mp h1
      · intro hl
        exact List.mem_cons.mpr (Or.inr ((ih h.2).mpr hl))

/-
Small list and string facts.
-/

theorem getLast?_mem {α : Type} {l : List α} {a : α} (h : l.getLast? = some a) : a ∈ l := by
  have hne : l ≠ [] := by
    intro hnil
    subst hnil
    simp at h
  rw [List.getLast?_eq_getLast l hne] at h
  have := List.getLast_mem hne
  rwa [← Option.some.injEq a _ |>.mp h.symm] at this

theorem length_dropWhile_le {α : Type} (p : α → Bool) (l : List α) :
    (l.dropWhile p).length ≤ l.length := by
  induction l with
  | nil => simp
  | cons a rest ih =>
    by_cases hp : p a
    · rw [List.dropWhile_cons_of_pos hp]
      exact Nat.le_succ_of_le ih
    · rw [List.dropWhile_cons_of_neg hp]

theorem parentOf_length_lt (s : String) (h : hasSlash s = true) :
    (parentOf s).toList.length < s.toList.length := by
  unfold parentOf
  have hmem : '/' ∈ s.toList.reverse := by
    rw [List.mem_reverse]
    unfold hasSlash at h
    simpa [List.contains] using h
  have hne : s.toList.reverse.dropWhile (fun c => c ≠ '/') ≠ [] := by
    intro hnil
    have := List.dropWhile_eq_nil_iff.mp hnil '/' hmem
    simp at this
  rcases hd : s.toList.reverse.dropWhile (fun c => c ≠ '/') with _ | ⟨c, cs⟩
  · exact absurd hd hne
  · have hlen : (s.toList.reverse.dropWhile (fun c => c ≠ '/')).length ≤ s.toList.length := by
      calc (s.toList.reverse.dropWhile (fun c => c ≠ '/')).length
          ≤ s.toList.reverse.length := length_dropWhile_le _ _
        _ = s.toList.length := List.length_reverse _
    rw [hd] at hlen
    show cs.reverse.length < s.toList.length
    rw [List.length_reverse]
    simp only [List.length_cons] at hlen
    omega

theorem parentOf_ne (s : String) (h : hasSlash s = true) : parentOf s ≠ s := by
  intro he
  have := parentOf_length_lt s h
  rw [he] at this
  omega

/-
Lookup characterisation of the entry-creation step.
-/

theorem creationStep_skip (st : AggState) (e : TestEvent)
    (h : ¬((lookupA st.results e.test).isNone = true ∧ isCreatingAction e.action)) :
    creationStep st e = st := by
  unfold creationStep
  rw [if_neg h]

theorem creationStep_startTime (st : AggState) (e : TestEvent) :
    (creationStep st e).testStartTime = st.testStartTime := by
  unfold creationStep
  split
  · split <;> rfl
  · rfl

theorem creationStep_outputMap (st : AggState) (e : TestEvent) :
    (creationStep st e).testOutputMap = st.testOutputMap := by
  unfold creationStep
  split
  · split <;> rfl
  · rfl

theorem creationStep_root (st : AggState) (e : TestEvent)
    (habs : lookupA st.results e.test = none) (hact : isCreatingAction e.action)
    (hs : hasSlash e.test = false) (x : String) :
    lookupA (creationStep st e).results x =
      if x = e.test then some (freshResult e.test e.package)
      else lookupA st.results x := by
  unfold creationStep
  rw [if_pos ⟨by simp [habs], hact⟩]
  rw [if_neg (by simp [hs])]
  exact lookupA_setA st.results e.test x (freshResult e.test e.package)

theorem creationStep_sub_present (st : AggState) (e : TestEvent) (pr : TestResult)
    (habs : lookupA st.results e.test = none) (hact : isCreatingAction e.action)
    (hs : hasSlash e.test = true)
    (hp : lookupA st.results (parentOf e.test) = some pr) (x : String) :
    lookupA (creationStep st e).results x =
      if x = parentOf e.test then some { pr with subTests := pr.subTests ++ [e.test] }
      else if x = e.test then
        some { freshResult e.test e.package with parentTest := parentOf e.test }
      else lookupA st.results x := by
  unfold creationStep
  rw [if_pos ⟨by simp [habs], hact⟩]
  rw [if_pos hs]
  simp only
  have hpn : parentOf e.test ≠ e.test := parentOf_ne e.test hs
  have h1 : lookupA (setA st.results e.test
      { freshResult e.test e.package with parentTest := parentOf e.test }) (parentOf e.test)
      = some pr := by
    rw [lookupA_setA, if_neg hpn, hp]
  rw [if_neg (by simp [h1])]
  rw [lookupA_updateA, lookupA_setA]
  by_cases hxp : x = parentOf e.test
  · rw [if_pos hxp, if_pos hxp]
    rw [hxp, if_neg hpn, hp]
    rfl
  · rw [if_neg hxp, if_neg hxp]

theorem creationStep_sub_absent (st : AggState) (e : TestEvent)
    (habs : lookupA st.results e.test = none) (hact : isCreatingAction e.action)
    (hs : hasSlash e.test = true)
    (hp : lookupA st.results (parentOf e.test) = none) (x : String) :
    lookupA (creationStep st e).results x =
      if x = parentOf e.test then
        some { freshResult (parentOf e.test) e.package with subTests := [e.test] }
      else if x = e.test then
        some { freshResult e.test e.package with parentTest := parentOf e.test }
      else lookupA st.results x := by
  unfold creationStep
  rw [if_pos ⟨by simp [habs], hact⟩]
  rw [if_pos hs]
  simp only
  have hpn : parentOf e.test ≠ e.test := parentOf_ne e.test hs
  have h1 : lookupA (setA st.results e.test
      { freshResult e.test e.package with parentTest := parentOf e.test }) (parentOf e.test)
      = none := by
    rw [lookupA_setA, if_neg hpn, hp]
  rw [if_pos (by simp [h1])]
  rw [lookupA_updateA, lookupA_setA, lookupA_setA]
  by_cases hxp : x = parentOf e.test
  · rw [if_pos hxp, if_pos hxp, if_pos hxp]
    rfl
  · rw [if_neg hxp, if_neg hxp, if_neg hxp]

theorem modelInv_nil : ModelInv [] := by
  constructor <;> first
    | exact List.nodup_nil
    | (intro n r h; simp [lookupA] at h)

/-- A field update that keeps everything except status and duration
fixed preserves the structural invariant. -/
theorem modelInv_updateA (m : List (String × TestResult)) (k : String)
    (f : TestResult → TestResult)
    (hf : ∀ r, (f r).name = r.name ∧ (f r).output = r.output ∧
      (f r).isSubTest = r.isSubTest ∧ (f r).parentTest = r.parentTest ∧
      (f r).subTests = r.subTests)
    (h : ModelInv m) : ModelInv (updateA m k f) := by
  have hl : ∀ n r, lookupA (updateA m k f) n = some r →
      ∃ r0, lookupA m n = some r0 ∧ (r = r0 ∨ r = f r0) := by
    intro n r hr
    rw [lookupA_updateA] at hr
    by_cases hn : n = k
    · rw [if_pos hn] at hr
      cases h0 : lookupA m n with
      | none => rw [h0] at hr; simp at hr
      | some r0 =>
        rw [h0] at hr
        simp at hr
        exact ⟨r0, rfl, Or.inr hr.symm⟩
    · rw [if_neg hn] at hr
      exact ⟨r, hr, Or.inl rfl⟩
  have hfields : ∀ r0 r, (r = r0 ∨ r = f r0) →
      r.name = r0.name ∧ r.output = r0.output ∧ r.isSubTest = r0.isSubTest ∧
      r.parentTest = r0.parentTest ∧ r.subTests = r0.subTests := by
    intro r0 r hr
    rcases hr with hr | hr <;> subst hr
    · exact ⟨rfl, rfl, rfl, rfl, rfl⟩
    · exact hf r0
  have hpres : ∀ n r0, lookupA m n = some r0 → ∃ r, lookupA (updateA m k f) n = some r ∧
      (r = r0 ∨ r = f r0) := by
    intro n r0 h0
    rw [lookupA_updateA]
    by_cases hn : n = k
    · rw [if_pos hn, h0]
      exact ⟨f r0, rfl, Or.inr rfl⟩
    · rw [if_neg hn, h0]
      exact ⟨r0, rfl, Or.inl rfl⟩
  constructor
  · rw [keys_updateA]; exact h.nodup
  · intro n r hr
    obtain ⟨r0, h0, hc⟩ := hl n r hr
    rw [(hfields r0 r hc).1]
    exact h.nameEq n r0 h0
  · intro n r hr
    obtain ⟨r0, h0, hc⟩ := hl n r hr
    rw [(hfields r0 r hc).2.1]
    exact h.outNil n r0 h0
  · intro n r hr
    obtain ⟨r0, h0, hc⟩ := hl n r hr
    rw [(hfields r0 r hc).2.2.1]
    exact h.subFlag n r0 h0
  · intro n r hr hne
    obtain ⟨r0, h0, hc⟩ := hl n r hr
    rw [(hfields r0 r hc).2.2.2.1] at hne ⊢
    exact h.parentVal n r0 h0 hne
  · intro n r hr hne
    obtain ⟨r0, h0, hc⟩ := hl n r hr
    rw [(hfields r0 r hc).2.2.2.1] at hne
    obtain ⟨p, hp, hmem⟩ := h.parentLink n r0 h0 hne
    obtain ⟨p', hp', hcp⟩ := hpres (parentOf n) p hp
    refine ⟨p', hp', ?_⟩
    rw [(hfields p p' hcp).2.2.2.2]
    exact hmem
  · intro n r hr c hc
    obtain ⟨r0, h0, hco⟩ := hl n r hr
    rw [(hfields r0 r hco).2.2.2.2] at hc
    obtain ⟨hc1, hc2, rc, hrc, hrcp⟩ := h.childMem n r0 h0 c hc
    obtain ⟨rc', hrc', hcc⟩ := hpres c rc hrc
    exact ⟨hc1, hc2, rc', hrc', by rw [(hfields rc rc' hcc).2.2.2.1]; exact hrcp⟩
  · intro n r hr c rc hrc hp hpne
    obtain ⟨r0, h0, hco⟩ := hl n r hr
    obtain ⟨rc0, hrc0, hcc⟩ := hl c rc hrc
    rw [(hfields r0 r hco).2.2.2.2]
    rw [(hfields rc0 rc hcc).2.2.2.1] at hp hpne
    exact h.childFull n r0 h0 c rc0 hrc0 hp hpne
  · intro n r hr
    obtain ⟨r0, h0, hc⟩ := hl n r hr
    rw [(hfields r0 r hc).2.2.2.2]
    exact h.childNodup n r0 h0

theorem creationStep_root_keys (st : AggState) (e : TestEvent)
    (habs : lookupA st.results e.test = none) (hact : isCreatingAction e.action)
    (hs : hasSlash e.test = false) :
    (creationStep st e).results.map Prod.fst = st.results.map Prod.fst ++ [e.test] := by
  unfold creationStep
  rw [if_pos ⟨by simp [habs], hact⟩, if_neg (by simp [hs])]
  exact keys_setA_of_absent st.results e.test _ habs

theorem creationStep_sub_present_keys (st : AggState) (e : TestEvent) (pr : TestResult)
    (habs : lookupA st.results e.test = none) (hact : isCreatingAction e.action)
    (hs : hasSlash e.test = true)
    (hp : lookupA st.results (parentOf e.test) = some pr) :
    (creationStep st e).results.map Prod.fst = st.results.map Prod.fst ++ [e.test] := by
  unfold creationStep
  rw [if_pos ⟨by simp [habs], hact⟩, if_pos hs]
  simp only
  have hpn : parentOf e.test ≠ e.test := parentOf_ne e.test hs
  have h1 : lookupA (setA st.results e.test
      { freshResult e.test e.package with parentTest := parentOf e.test }) (parentOf e.test)
      = some pr := by
    rw [lookupA_setA, if_neg hpn, hp]
  rw [if_neg (by simp [h1])]
  rw [keys_updateA, keys_setA_of_absent st.results e.test _ habs]

theorem creationStep_sub_absent_keys (st : AggState) (e : TestEvent)
    (habs : lookupA st.results e.test = none) (hact : isCreatingAction e.action)
    (hs : hasSlash e.test = true)
    (hp : lookupA st.results (parentOf e.test) = none) :
    (creationStep st e).results.map Prod.fst =
      st.results.map Prod.fst ++ [e.test] ++ [parentOf e.test] := by
  unfold creationStep
  rw [if_pos ⟨by simp [habs], hact⟩, if_pos hs]
  simp only
  have hpn : parentOf e.test ≠ e.test := parentOf_ne e.test hs
  have h1 : lookupA (setA st.results e.test
      { freshResult e.test e.package with parentTest := parentOf e.test }) (parentOf e.test)
      = none := by
    rw [lookupA_setA, if_neg hpn, hp]
  rw [if_pos (by simp [h1])]
  rw [keys_updateA, keys_setA_of_absent _ _ _ h1,
    keys_setA_of_absent st.results e.test _ habs]

theorem modelInv_creationStep_root (st : AggState) (e : TestEvent)
    (habs : lookupA st.results e.test = none) (hact : isCreatingAction e.action)
    (hs : hasSlash e.test = false) (h : ModelInv st.results) :
    ModelInv (creationStep st e).results := by
  have hL := creationStep_root st e habs hact hs
  have hold : ∀ x q, lookupA st.results x = some q → x ≠ e.test := by
    intro x q hq hx
    rw [hx, habs] at hq
    exact Option.noConfusion hq
  have holdL : ∀ x q, lookupA st.results x = some q →
      lookupA (creationStep st e).results x = some q := by
    intro x q hq
    rw [hL x, if_neg (hold x q hq), hq]
  have hcases : ∀ x q, lookupA (creationStep st e).results x = some q →
      (x = e.test ∧ q = freshResult e.test e.package) ∨
      (x ≠ e.test ∧ lookupA st.results x = some q) := by
    intro x q hq
    rw [hL x] at hq
    by_cases hx : x = e.test
    · rw [if_pos hx] at hq
      exact Or.inl ⟨hx, (Option.some.injEq _ _).mp hq.symm⟩
    · rw [if_neg hx] at hq
      exact Or.inr ⟨hx, hq⟩
  constructor
  · rw [creationStep_root_keys st e habs hact hs]
    have hk : e.test ∉ st.results.map Prod.fst := (lookupA_none_iff _ _).mp habs
    simp [List.nodup_append, h.nodup, hk]
  · intro n r hr
    rcases hcases n r hr with ⟨hx, hq⟩ | ⟨hx, hq⟩
    · rw [hq, hx]; rfl
    · exact h.nameEq n r hq
  · intro n r hr
    rcases hcases n r hr with ⟨hx, hq⟩ | ⟨hx, hq⟩
    · rw [hq]; rfl
    · exact h.outNil n r hq
  · intro n r hr
    rcases hcases n r hr with ⟨hx, hq⟩ | ⟨hx, hq⟩
    · rw [hq, hx]; rfl
    · exact h.subFlag n r hq
  · intro n r hr hne
    rcases hcases n r hr with ⟨hx, hq⟩ | ⟨hx, hq⟩
    · rw [hq] at hne; exact absurd rfl hne
    · exact h.parentVal n r hq hne
  · intro n r hr hne
    rcases hcases n r hr with ⟨hx, hq⟩ | ⟨hx, hq⟩
    · rw [hq] at hne; exact absurd rfl hne
    · obtain ⟨p, hp, hmem⟩ := h.parentLink n r hq hne
      exact ⟨p, holdL _ _ hp, hmem⟩
  · intro n r hr c hc
    rcases hcases n r hr with ⟨hx, hq⟩ | ⟨hx, hq⟩
    · rw [hq] at hc; simp [freshResult] at hc
    · obtain ⟨h1, h2, rc, hrc, h3⟩ := h.childMem n r hq c hc
      exact ⟨h1, h2, rc, holdL _ _ hrc, h3⟩
  · intro n r hr c rc hrc hp hpne
    rcases hcases c rc hrc with ⟨hx, hq⟩ | ⟨hx, hq⟩
    · rw [hq] at hp hpne
      exact absurd rfl hpne
    · rcases hcases n r hr with ⟨hy, hq2⟩ | ⟨hy, hq2⟩
      · exfalso
        obtain ⟨p, hpl, _⟩ := h.parentLink c rc hq hpne
        obtain ⟨hpv, _⟩ := h.parentVal c rc hq hpne
        rw [hpv] at hp
        rw [hp, hy] at hpl
        rw [habs] at hpl
        exact Option.noConfusion hpl
      · exact h.childFull n r hq2 c rc hq hp hpne
  · intro n r hr
    rcases hcases n r hr with ⟨hx, hq⟩ | ⟨hx, hq⟩
    · rw [hq]; exact List.nodup_nil
    · exact h.childNodup n r hq

theorem modelInv_creationStep_sub_present (st : AggState) (e : TestEvent) (pr : TestResult)
    (habs : lookupA st.results e.test = none) (hact : isCreatingAction e.action)
    (hs : hasSlash e.test = true)
    (hp : lookupA st.results (parentOf e.test) = some pr)
    (h : ModelInv st.results) : ModelInv (creationStep st e).results := by
  have hL := creationStep_sub_present st e pr habs hact hs hp
  have hpn : parentOf e.test ≠ e.test := parentOf_ne e.test hs
  have hold : ∀ x q, lookupA st.results x = some q → x ≠ e.test := by
    intro x q hq hx
    rw [hx, habs] at hq
    exact Option.noConfusion hq
  have hcases : ∀ x q, lookupA (creationStep st e).results x = some q →
      (x = parentOf e.test ∧ q = { pr with subTests := pr.subTests ++ [e.test] }) ∨
      (x = e.test ∧
        q = { freshResult e.test e.package with parentTest := parentOf e.test }) ∨
      (x ≠ parentOf e.test ∧ x ≠ e.test ∧ lookupA st.results x = some q) := by
    intro x q hq
    rw [hL x] at hq
    by_cases hx1 : x = parentOf e.test
    · rw [if_pos hx1] at hq
      exact Or.inl ⟨hx1, (Option.some.injEq _ _).mp hq.symm⟩
    · rw [if_neg hx1] at hq
      by_cases hx2 : x = e.test
      · rw [if_pos hx2] at hq
        exact Or.inr (Or.inl ⟨hx2, (Option.some.injEq _ _).mp hq.symm⟩)
      · rw [if_neg hx2] at hq
        exact Or.inr (Or.inr ⟨hx1, hx2, hq⟩)
  have holdL : ∀ x q, lookupA st.results x = some q → x ≠ parentOf e.test →
      lookupA (creationStep st e).results x = some q := by
    intro x q hq hxp
    rw [hL x, if_neg hxp, if_neg (hold x q hq), hq]
  have hupL : ∀ x q, lookupA st.results x = some q →
      ∃ q', lookupA (creationStep st e).results x = some q' ∧
        q'.name = q.name ∧ q'.output = q.output ∧ q'.isSubTest = q.isSubTest ∧
        q'.parentTest = q.parentTest ∧ q'.status = q.status ∧
        (∀ c, c ∈ q.subTests → c ∈ q'.subTests) := by
    intro x q hq
    by_cases hxp : x = parentOf e.test
    · have hqpr : q = pr := by
        rw [hxp, hp] at hq
        exact ((Option.some.injEq _ _).mp hq).symm
      refine ⟨{ pr with subTests := pr.subTests ++ [e.test] }, ?_, ?_⟩
      · rw [hL x, if_pos hxp]
      · subst hqpr
        exact ⟨rfl, rfl, rfl, rfl, rfl, fun c hc => List.mem_append.mpr (Or.inl hc)⟩
    · exact ⟨q, holdL x q hq hxp, rfl, rfl, rfl, rfl, rfl, fun c hc => hc⟩
  have hsubmem : ∀ c, c ∈ pr.subTests → c ≠ e.test := by
    intro c hc
    obtain ⟨_, _, rc, hrc, _⟩ := h.childMem (parentOf e.test) pr hp c hc
    exact hold c rc hrc
  constructor
  · rw [creationStep_sub_present_keys st e pr habs hact hs hp]
    have hk : e.test ∉ st.results.map Prod.fst := (lookupA_none_iff _ _).mp habs
    simp [List.nodup_append, h.nodup, hk]
  · intro n r hr
    rcases hcases n r hr with ⟨hx, hq⟩ | ⟨hx, hq⟩ | ⟨hx1, hx2, hq⟩
    · rw [hq, hx]
      exact h.nameEq _ pr hp
    · rw [hq, hx]; rfl
    · exact h.nameEq n r hq
  · intro n r hr
    rcases hcases n r hr with ⟨hx, hq⟩ | ⟨hx, hq⟩ | ⟨hx1, hx2, hq⟩
    · rw [hq]
      exact h.outNil _ pr hp
    · rw [hq]; rfl
    · exact h.outNil n r hq
  · intro n r hr
    rcases hcases n r hr with ⟨hx, hq⟩ | ⟨hx, hq⟩ | ⟨hx1, hx2, hq⟩
    · rw [hq, hx]
      exact h.subFlag _ pr hp
    · rw [hq, hx]; rfl
    · exact h.subFlag n r hq
  · intro n r hr hne
    rcases hcases n r hr with ⟨hx, hq⟩ | ⟨hx, hq⟩ | ⟨hx1, hx2, hq⟩
    · rw [hq] at hne ⊢
      rw [hx]
      exact h.parentVal _ pr hp hne
    · rw [hq] at hne ⊢
      rw [hx]
      exact ⟨rfl, hs⟩
    · exact h.parentVal n r hq hne
  · intro n r hr hne
    rcases hcases n r hr with ⟨hx, hq⟩ | ⟨hx, hq⟩ | ⟨hx1, hx2, hq⟩
    · rw [hq] at hne
      obtain ⟨q0, hq0, hmem⟩ := h.parentLink _ pr hp hne
      obtain ⟨q', hq', hfields⟩ := hupL (parentOf (parentOf e.test)) q0 hq0
      rw [hx]
      exact ⟨q', hq', hfields.2.2.2.2.2 _ hmem⟩
    · rw [hx]
      refine ⟨{ pr with subTests := pr.subTests ++ [e.test] }, ?_, ?_⟩
      · rw [hL (parentOf e.test), if_pos rfl]
      · exact List.mem_append.mpr (Or.inr (List.mem_singleton.mpr rfl))
    · obtain ⟨q0, hq0, hmem⟩ := h.parentLink n r hq hne
      obtain ⟨q', hq', hfields⟩ := hupL (parentOf n) q0 hq0
      exact ⟨q', hq', hfields.2.2.2.2.2 _ hmem⟩
  · intro n r hr c hc
    rcases hcases n r hr with ⟨hx, hq⟩ | ⟨hx, hq⟩ | ⟨hx1, hx2, hq⟩
    · rw [hq] at hc
      simp only at hc
      rcases List.mem_append.mp hc with hc1 | hc1
      · obtain ⟨h1, h2, rc, hrc, h3⟩ := h.childMem _ pr hp c hc1
        obtain ⟨rc', hrc', hfields⟩ := hupL c rc hrc
        rw [hx]
        exact ⟨h1, h2, rc', hrc', by rw [hfields.2.2.2.1]; exact h3⟩
      · have hce : c = e.test := List.mem_singleton.mp hc1
        rw [hx, hce]
        refine ⟨rfl, hs,
          { freshResult e.test e.package with parentTest := parentOf e.test }, ?_, rfl⟩
        rw [hL e.test, if_neg (fun hh => hpn hh.symm), if_pos rfl]
    · rw [hq] at hc
      simp [freshResult] at hc
    · obtain ⟨h1, h2, rc, hrc, h3⟩ := h.childMem n r hq c hc
      obtain ⟨rc', hrc', hfields⟩ := hupL c rc hrc
      exact ⟨h1, h2, rc', hrc', by rw [hfields.2.2.2.1]; exact h3⟩
  · intro n r hr c rc hrc hpar hpne
    rcases hcases c rc hrc with ⟨hxc, hqc⟩ | ⟨hxc, hqc⟩ | ⟨hxc1, hxc2, hqc⟩
    · -- c is the parent entry itself: its parentTest equalling n
      have hpar2 : pr.parentTest = n := by rw [hqc] at hpar; exact hpar
      have hpne2 : pr.parentTest ≠ "" := by rw [hqc] at hpne; exact hpne
      rcases hcases n r hr with ⟨hy, hqy⟩ | ⟨hy, hqy⟩ | ⟨hy1, hy2, hqy⟩
      · -- n = parentOf e.test = c: impossible since parentOf c ≠ c
        exfalso
        obtain ⟨hv, hsl⟩ := h.parentVal _ pr hp hpne2
        rw [hv] at hpar2
        rw [hy, ← hxc] at hpar2
        exact parentOf_ne _ hsl (hxc ▸ hpar2)
      · exfalso
        obtain ⟨hv, _⟩ := h.parentVal _ pr hp hpne2
        rw [hv] at hpar2
        obtain ⟨q0, hq0, _⟩ := h.parentLink _ pr hp hpne2
        rw [hpar2, hy] at hq0
        rw [habs] at hq0
        exact Option.noConfusion hq0
      · exact h.childFull n r hqy c pr (by rw [hxc]; exact hp) hpar2 hpne2
    · -- c = e.test, rc.parentTest = parentOf e.test
      have hpar2 : parentOf e.test = n := by rw [hqc] at hpar; exact hpar
      rcases hcases n r hr with ⟨hy, hqy⟩ | ⟨hy, hqy⟩ | ⟨hy1, hy2, hqy⟩
      · rw [hqy]
        simp only [hxc]
        exact List.mem_append.mpr (Or.inr (List.mem_singleton.mpr rfl))
      · exfalso
        rw [hy] at hpar2
        exact hpn hpar2
      · exfalso
        exact hy1 hpar2.symm
    · -- c is an old entry
      rcases hcases n r hr with ⟨hy, hqy⟩ | ⟨hy, hqy⟩ | ⟨hy1, hy2, hqy⟩
      · rw [hqy]
        simp only
        apply List.mem_append.mpr
        left
        exact h.childFull _ pr hp c rc hqc (by rw [← hy]; exact hpar) hpne
      · exfalso
        obtain ⟨hv, _⟩ := h.parentVal c rc hqc hpne
        obtain ⟨q0, hq0, _⟩ := h.parentLink c rc hqc hpne
        rw [hv] at hpar
        rw [hpar, hy] at hq0
        rw [habs] at hq0
        exact Option.noConfusion hq0
      · exact h.childFull n r hqy c rc hqc hpar hpne
  · intro n r hr
    rcases hcases n r hr with ⟨hx, hq⟩ | ⟨hx, hq⟩ | ⟨hx1, hx2, hq⟩
    · rw [hq]
      simp only
      rw [List.nodup_append]
      refine ⟨h.childNodup _ pr hp, List.nodup_singleton _, ?_⟩
      intro a ha hb
      have := hsubmem a ha
      rw [List.mem_singleton.mp hb] at this
      exact this rfl
    · rw [hq]
      exact List.nodup_nil
    · exact h.childNodup n r hq

theorem modelInv_creationStep_sub_absent (st : AggState) (e : TestEvent)
    (habs : lookupA st.results e.test = none) (hact : isCreatingAction e.action)
    (hs : hasSlash e.test = true)
    (hp : lookupA st.results (parentOf e.test) = none)
    (h : ModelInv st.results) : ModelInv (creationStep st e).results := by
  have hL := creationStep_sub_absent st e habs hact hs hp
  have hpn : parentOf e.test ≠ e.test := parentOf_ne e.test hs
  have hold : ∀ x q, lookupA st.results x = some q → x ≠ e.test := by
    intro x q hq hx
    rw [hx, habs] at hq
    exact Option.noConfusion hq
  have holdp : ∀ x q, lookupA st.results x = some q → x ≠ parentOf e.test := by
    intro x q hq hx
    rw [hx, hp] at hq
    exact Option.noConfusion hq
  have hcases : ∀ x q, lookupA (creationStep st e).results x = some q →
      (x = parentOf e.test ∧
        q = { freshResult (parentOf e.test) e.package with subTests := [e.test] }) ∨
      (x = e.test ∧
        q = { freshResult e.test e.package with parentTest := parentOf e.test }) ∨
      (x ≠ parentOf e.test ∧ x ≠ e.test ∧ lookupA st.results x = some q) := by
    intro x q hq
    rw [hL x] at hq
    by_cases hx1 : x = parentOf e.test
    · rw [if_pos hx1] at hq
      exact Or.inl ⟨hx1, (Option.some.injEq _ _).mp hq.symm⟩
    · rw [if_neg hx1] at hq
      by_cases hx2 : x = e.test
      · rw [if_pos hx2] at hq
        exact Or.inr (Or.inl ⟨hx2, (Option.some.injEq _ _).mp hq.symm⟩)
      · rw [if_neg hx2] at hq
        exact Or.inr (Or.inr ⟨hx1, hx2, hq⟩)
  have holdL : ∀ x q, lookupA st.results x = some q →
      lookupA (creationStep st e).results x = some q := by
    intro x q hq
    rw [hL x, if_neg (holdp x q hq), if_neg (hold x q hq), hq]
  constructor
  · rw [creationStep_sub_absent_keys st e habs hact hs hp]
    have hk1 : e.test ∉ st.results.map Prod.fst := (lookupA_none_iff _ _).mp habs
    have hk2 : parentOf e.test ∉ st.results.map Prod.fst := (lookupA_none_iff _ _).mp hp
    simp [List.nodup_append, h.nodup, hk1, hk2]
    intro hx
    exact absurd hx.symm hpn
  · intro n r hr
    rcases hcases n r hr with ⟨hx, hq⟩ | ⟨hx, hq⟩ | ⟨hx1, hx2, hq⟩
    · rw [hq, hx]; rfl
    · rw [hq, hx]; rfl
    · exact h.nameEq n r hq
  · intro n r hr
    rcases hcases n r hr with ⟨hx, hq⟩ | ⟨hx, hq⟩ | ⟨hx1, hx2, hq⟩
    · rw [hq]; rfl
    · rw [hq]; rfl
    · exact h.outNil n r hq
  · intro n r hr
    rcases hcases n r hr with ⟨hx, hq⟩ | ⟨hx, hq⟩ | ⟨hx1, hx2, hq⟩
    · rw [hq, hx]; rfl
    · rw [hq, hx]; rfl
    · exact h.subFlag n r hq
  · intro n r hr hne
    rcases hcases n r hr with ⟨hx, hq⟩ | ⟨hx, hq⟩ | ⟨hx1, hx2, hq⟩
    · exfalso
      rw [hq] at hne
      exact hne rfl
    · rw [hq] at hne ⊢
      rw [hx]
      exact ⟨rfl, hs⟩
    · exact h.parentVal n r hq hne
  · intro n r hr hne
    rcases hcases n r hr with ⟨hx, hq⟩ | ⟨hx, hq⟩ | ⟨hx1, hx2, hq⟩
    · exfalso
      rw [hq] at hne
      exact hne rfl
    · rw [hx]
      refine ⟨{ freshResult (parentOf e.test) e.package with subTests := [e.test] }, ?_, ?_⟩
      · rw [hL (parentOf e.test), if_pos rfl]
      · exact List.mem_singleton.mpr rfl
    · obtain ⟨q0, hq0, hmem⟩ := h.parentLink n r hq hne
      exact ⟨q0, holdL _ _ hq0, hmem⟩
  · intro n r hr c hc
    rcases hcases n r hr with ⟨hx, hq⟩ | ⟨hx, hq⟩ | ⟨hx1, hx2, hq⟩
    · have hce : c = e.test := by
        rw [hq] at hc
        exact List.mem_singleton.mp hc
      rw [hx, hce]
      refine ⟨rfl, hs,
        { freshResult e.test e.package with parentTest := parentOf e.test }, ?_, rfl⟩
      rw [hL e.test, if_neg (fun hh => hpn hh.symm), if_pos rfl]
    · exfalso
      rw [hq] at hc
      simp [freshResult] at hc
    · obtain ⟨h1, h2, rc, hrc, h3⟩ := h.childMem n r hq c hc
      exact ⟨h1, h2, rc, holdL _ _ hrc, h3⟩
  · intro n r hr c rc hrc hpar hpne
    rcases hcases c rc hrc with ⟨hxc, hqc⟩ | ⟨hxc, hqc⟩ | ⟨hxc1, hxc2, hqc⟩
    · exfalso
      have : ("" : String) ≠ "" := by
        rw [hqc] at hpne
        exact hpne
      exact this rfl
    · have hpar2 : parentOf e.test = n := by rw [hqc] at hpar; exact hpar
      rcases hcases n r hr with ⟨hy, hqy⟩ | ⟨hy, hqy⟩ | ⟨hy1, hy2, hqy⟩
      · rw [hqy]
        simp only [hxc]
        exact List.mem_singleton.mpr rfl
      · exfalso
        rw [hy] at hpar2
        exact hpn hpar2
      · exfalso
        exact hy1 hpar2.symm
    · obtain ⟨hv, _⟩ := h.parentVal c rc hqc hpne
      obtain ⟨q0, hq0, _⟩ := h.parentLink c rc hqc hpne
      rcases hcases n r hr with ⟨hy, hqy⟩ | ⟨hy, hqy⟩ | ⟨hy1, hy2, hqy⟩
      · exfalso
        rw [← hv, hpar, hy, hp] at hq0
        exact Option.noConfusion hq0
      · exfalso
        rw [← hv, hpar, hy, habs] at hq0
        exact Option.noConfusion hq0
      · exact h.childFull n r hqy c rc hqc hpar hpne
  · intro n r hr
    rcases hcases n r hr with ⟨hx, hq⟩ | ⟨hx, hq⟩ | ⟨hx1, hx2, hq⟩
    · rw [hq]
      exact List.nodup_singleton _
    · rw [hq]
      exact List.nodup_nil
    · exact h.childNodup n r hq

theorem modelInv_actionStep (st : AggState) (e : TestEvent) (h : ModelInv st.results) :
    ModelInv (actionStep st e).results := by
  unfold actionStep
  by_cases h1 : e.action = "run"
  · rw [if_pos h1]; exact h
  · rw [if_neg h1]
    by_cases h2 : e.action = "pass"
    · rw [if_pos h2]
      show ModelInv (updateA st.results e.test (fun r =>
        { r with status := "PASS", duration := resolveDuration st e r.duration }))
      refine modelInv_updateA _ _ _ ?_ h
      intro r
      exact ⟨rfl, rfl, rfl, rfl, rfl⟩
    · rw [if_neg h2]
      by_cases h3 : e.action = "fail"
      · rw [if_pos h3]
        show ModelInv (updateA st.results e.test (fun r =>
          { r with status := "FAIL", duration := resolveDuration st e r.duration }))
        refine modelInv_updateA _ _ _ ?_ h
        intro r
        exact ⟨rfl, rfl, rfl, rfl, rfl⟩
      · rw [if_neg h3]
        by_cases h4 : e.action = "skip"
        · rw [if_pos h4]
          show ModelInv (updateA st.results e.test (fun r => { r with status := "SKIP" }))
          refine modelInv_updateA _ _ _ ?_ h
          intro r
          exact ⟨rfl, rfl, rfl, rfl, rfl⟩
        · rw [if_neg h4]
          by_cases h5 : e.action = "output"
          · rw [if_pos h5]; exact h
          · rw [if_neg h5]; exact h

theorem modelInv_creationStep (st : AggState) (e : TestEvent) (h : ModelInv st.results) :
    ModelInv (creationStep st e).results := by
  by_cases hg : (lookupA st.results e.test).isNone = true ∧ isCreatingAction e.action
  · have habs : lookupA st.results e.test = none := Option.isNone_iff_eq_none.mp hg.1
    by_cases hsl : hasSlash e.test = true
    · cases hpp : lookupA st.results (parentOf e.test) with
      | some pr => exact modelInv_creationStep_sub_present st e pr habs hg.2 hsl hpp h
      | none => exact modelInv_creationStep_sub_absent st e habs hg.2 hsl hpp h
    · have hsl2 : hasSlash e.test = false := by simpa using hsl
      exact modelInv_creationStep_root st e habs hg.2 hsl2 h
  · rw [creationStep_skip st e hg]; exact h

theorem modelInv_stepEvent (st : AggState) (e : TestEvent) (h : ModelInv st.results) :
    ModelInv (stepEvent st e).results := by
  unfold stepEvent
  by_cases ht : e.test = ""
  · rw [if_pos ht]; exact h
  · rw [if_neg ht]
    exact modelInv_actionStep _ e (modelInv_creationStep st e h)

theorem modelInv_runPhase (es : List TestEvent) : ModelInv (runPhase es).results := by
  have hgen : ∀ st, ModelInv st.results → ModelInv (es.foldl stepEvent st).results := by
    induction es with
    | nil => intro st h; exact h
    | cons e rest ih =>
      intro st h
      exact ih _ (modelInv_stepEvent st e h)
  exact hgen initState modelInv_nil

theorem outMap_nodup_stepEvent (st : AggState) (e : TestEvent)
    (h : (st.testOutputMap.map Prod.fst).Nodup) :
    ((stepEvent st e).testOutputMap.map Prod.fst).Nodup := by
  unfold stepEvent
  by_cases ht : e.test = ""
  · rw [if_pos ht]; exact h
  · rw [if_neg ht]
    have hc : (creationStep st e).testOutputMap = st.testOutputMap :=
      creationStep_outputMap st e
    unfold actionStep
    by_cases h1 : e.action = "run"
    · rw [if_pos h1]; rw [creationStep_outputMap]; exact h
    · rw [if_neg h1]
      by_cases h2 : e.action = "pass"
      · rw [if_pos h2]; rw [creationStep_outputMap]; exact h
      · rw [if_neg h2]
        by_cases h3 : e.action = "fail"
        · rw [if_pos h3]; rw [creationStep_outputMap]; exact h
        · rw [if_neg h3]
          by_cases h4 : e.action = "skip"
          · rw [if_pos h4]; rw [creationStep_outputMap]; exact h
          · rw [if_neg h4]
            by_cases h5 : e.action = "output"
            · rw [if_pos h5]
              simp only
              rw [hc]
              exact nodupKeys_setA _ _ _ h
            · rw [if_neg h5]; rw [creationStep_outputMap]; exact h

theorem outMap_nodup_runPhase (es : List TestEvent) :
    ((runPhase es).testOutputMap.map Prod.fst).Nodup := by
  have hgen : ∀ st, (st.testOutputMap.map Prod.fst).Nodup →
      ((es.foldl stepEvent st).testOutputMap.map Prod.fst).Nodup := by
    induction es with
    | nil => intro st h; exact h
    | cons e rest ih =>
      intro st h
      exact ih _ (outMap_nodup_stepEvent st e h)
  exact hgen initState List.nodup_nil

theorem lookupA_flushOutputs (om : List (String × List String))
    (m : List (String × TestResult))
    (hnd : (om.map Prod.fst).Nodup) (n : String) :
    lookupA (flushOutputs m om) n =
      match lookupA om n with
      | some os => (lookupA m n).map (fun r => { r with output := os })
      | none => lookupA m n := by
  induction om generalizing m with
  | nil => simp [flushOutputs, lookupA]
  | cons kv rest ih =>
    have hnd2 : (rest.map Prod.fst).Nodup := (List.nodup_cons.mp hnd).2
    have hknotin : kv.1 ∉ rest.map Prod.fst := (List.nodup_cons.mp hnd).1
    have hunf : flushOutputs m (kv :: rest) =
        flushOutputs (updateA m kv.1 (fun r => { r with output := kv.2 })) rest := rfl
    rw [hunf, ih _ hnd2]
    cases hrest : lookupA rest n with
    | some os =>
      have hmem : n ∈ rest.map Prod.fst := by
        by_contra hnot
        rw [(lookupA_none_iff rest n).mpr hnot] at hrest
        exact Option.noConfusion hrest
      have hne : n ≠ kv.1 := fun hx => hknotin (hx ▸ hmem)
      rw [lookupA_updateA, if_neg hne]
      have hcons : lookupA (kv :: rest) n = some os := by
        simp [lookupA, hne, hrest]
      rw [hcons]
    | none =>
      by_cases hne : n = kv.1
      · rw [lookupA_updateA, if_pos hne]
        have hcons : lookupA (kv :: rest) n = some kv.2 := by
          simp [lookupA, hne]
        rw [hcons]
      · rw [lookupA_updateA, if_neg hne]
        have hcons : lookupA (kv :: rest) n = none := by
          simp [lookupA, hne, hrest]
        rw [hcons]

theorem runPhase_concat (es : List TestEvent) (e : TestEvent) :
    runPhase (es ++ [e]) = stepEvent (runPhase es) e := by
  unfold runPhase
  rw [List.foldl_append]
  rfl

theorem lastTerminalStatus_concat (es : List TestEvent) (e : TestEvent) (n : String) :
    lastTerminalStatus (es ++ [e]) n =
      if isTerminalFor n e then some (statusOfAction e.action)
      else lastTerminalStatus es n := by
  unfold lastTerminalStatus
  rw [List.filter_append]
  by_cases hterm : isTerminalFor n e
  · rw [if_pos hterm]
    have : List.filter (isTerminalFor n) [e] = [e] := by
      simp [List.filter, hterm]
    rw [this, List.getLast?_concat]
    rfl
  · rw [if_neg hterm]
    have : List.filter (isTerminalFor n) [e] = [] := by
      simp only [List.filter]
      rw [Bool.not_eq_true] at hterm
      rw [hterm]
    rw [this, List.append_nil]

theorem lastStartTime_concat (es : List TestEvent) (e : TestEvent) (n : String) :
    lastStartTime (es ++ [e]) n =
      if isRunFor n e then e.time else lastStartTime es n := by
  unfold lastStartTime
  rw [List.filter_append]
  by_cases hrun : isRunFor n e
  · rw [if_pos hrun]
    have : List.filter (isRunFor n) [e] = [e] := by
      simp [List.filter, hrun]
    rw [this, List.getLast?_concat]
    rfl
  · rw [if_neg hrun]
    have : List.filter (isRunFor n) [e] = [] := by
      simp only [List.filter]
      rw [Bool.not_eq_true] at hrun
      rw [hrun]
    rw [this, List.append_nil]

theorem outputsFor_concat (es : List TestEvent) (e : TestEvent) (n : String) :
    outputsFor (es ++ [e]) n =
      if isOutputFor n e then
        (if trimNewline e.output = "" then outputsFor es n
         else outputsFor es n ++ [trimNewline e.output])
      else outputsFor es n := by
  unfold outputsFor
  rw [List.filter_append]
  by_cases hout : isOutputFor n e
  · rw [if_pos hout]
    have h1 : List.filter (isOutputFor n) [e] = [e] := by
      simp [List.filter, hout]
    rw [h1, List.filterMap_append]
    by_cases hemp : trimNewline e.output = ""
    · rw [if_pos hemp]
      simp [List.filterMap, hemp]
    · rw [if_neg hemp]
      simp [List.filterMap, hemp]
  · rw [if_neg hout]
    have h1 : List.filter (isOutputFor n) [e] = [] := by
      simp only [List.filter]
      rw [Bool.not_eq_true] at hout
      rw [hout]
    rw [h1, List.append_nil]

theorem actionStep_results_nonterminal (st : AggState) (e : TestEvent)
    (h : ¬(e.action = "pass" ∨ e.action = "fail" ∨ e.action = "skip")) :
    (actionStep st e).results = st.results := by
  unfold actionStep
  push_neg at h
  obtain ⟨h2, h3, h4⟩ := h
  by_cases h1 : e.action = "run"
  · rw [if_pos h1]
  · rw [if_neg h1, if_neg h2, if_neg h3, if_neg h4]
    by_cases h5 : e.action = "output"
    · rw [if_pos h5]
    · rw [if_neg h5]

theorem actionStep_results_pass (st : AggState) (e : TestEvent) (h : e.action = "pass") :
    (actionStep st e).results = updateA st.results e.test (fun r =>
      { r with status := "PASS", duration := resolveDuration st e r.duration }) := by
  unfold actionStep
  rw [if_neg (by simp [h]), if_pos h]

theorem actionStep_results_fail (st : AggState) (e : TestEvent) (h : e.action = "fail") :
    (actionStep st e).results = updateA st.results e.test (fun r =>
      { r with status := "FAIL", duration := resolveDuration st e r.duration }) := by
  unfold actionStep
  rw [if_neg (by simp [h]), if_neg (by simp [h]), if_pos h]

theorem actionStep_results_skip (st : AggState) (e : TestEvent) (h : e.action = "skip") :
    (actionStep st e).results = updateA st.results e.test
      (fun r => { r with status := "SKIP" }) := by
  unfold actionStep
  rw [if_neg (by simp [h]), if_neg (by simp [h]), if_neg (by simp [h]), if_pos h]

theorem actionStep_startTime (st : AggState) (e : TestEvent) :
    (actionStep st e).testStartTime =
      if e.action = "run" then setA st.testStartTime e.test e.time
      else st.testStartTime := by
  unfold actionStep
  by_cases h1 : e.action = "run"
  · rw [if_pos h1, if_pos h1]
  · rw [if_neg h1, if_neg h1]
    by_cases h2 : e.action = "pass"
    · rw [if_pos h2]
    · rw [if_neg h2]
      by_cases h3 : e.action = "fail"
      · rw [if_pos h3]
      · rw [if_neg h3]
        by_cases h4 : e.action = "skip"
        · rw [if_pos h4]
        · rw [if_neg h4]
          by_cases h5 : e.action = "output"
          · rw [if_pos h5]
          · rw [if_neg h5]

theorem actionStep_outputMap (st : AggState) (e : TestEvent) :
    (actionStep st e).testOutputMap =
      if e.action = "output" then
        setA st.testOutputMap e.test
          (if trimNewline e.output = "" then (lookupA st.testOutputMap e.test).getD []
           else (lookupA st.testOutputMap e.test).getD [] ++ [trimNewline e.output])
      else st.testOutputMap := by
  unfold actionStep
  by_cases h1 : e.action = "run"
  · rw [if_pos h1, if_neg (by simp [h1])]
  · rw [if_neg h1]
    by_cases h2 : e.action = "pass"
    · rw [if_pos h2, if_neg (by simp [h2])]
    · rw [if_neg h2]
      by_cases h3 : e.action = "fail"
      · rw [if_pos h3, if_neg (by simp [h3])]
      · rw [if_neg h3]
        by_cases h4 : e.action = "skip"
        · rw [if_pos h4, if_neg (by simp [h4])]
        · rw [if_neg h4]
          by_cases h5 : e.action = "output"
          · rw [if_pos h5, if_pos h5]
          · rw [if_neg h5, if_neg h5]

theorem creationStep_view (st : AggState) (e : TestEvent) (n : String) :
    (∀ r, lookupA st.results n = some r →
      ∃ r', lookupA (creationStep st e).results n = some r' ∧
        r'.status = r.status ∧ r'.duration = r.duration ∧ r'.output = r.output) ∧
    (lookupA st.results n = none →
      lookupA (creationStep st e).results n = none ∨
      ∃ r', lookupA (creationStep st e).results n = some r' ∧
        r'.status = "UNKNOWN" ∧ r'.duration = 0 ∧ r'.output = []) := by
  by_cases hg : (lookupA st.results e.test).isNone = true ∧ isCreatingAction e.action
  · have habs : lookupA st.results e.test = none := Option.isNone_iff_eq_none.mp hg.1
    by_cases hsl : hasSlash e.test = true
    · cases hpp : lookupA st.results (parentOf e.test) with
      | some pr =>
        have hL := creationStep_sub_present st e pr habs hg.2 hsl hpp
        constructor
        · intro r hr
          by_cases hnp : n = parentOf e.test
          · have hrpr : r = pr := by
              rw [hnp, hpp] at hr
              exact ((Option.some.injEq _ _).mp hr).symm
            refine ⟨{ pr with subTests := pr.subTests ++ [e.test] }, ?_, ?_⟩
            · rw [hL n, if_pos hnp]
            · rw [hrpr]
              exact ⟨rfl, rfl, rfl⟩
          · have hnt : n ≠ e.test := by
              intro hx
              rw [hx, habs] at hr
              exact Option.noConfusion hr
            refine ⟨r, ?_, rfl, rfl, rfl⟩
            rw [hL n, if_neg hnp, if_neg hnt, hr]
        · intro hnone
          by_cases hnp : n = parentOf e.test
          · exfalso
            rw [hnp, hpp] at hnone
            exact Option.noConfusion hnone
          · by_cases hnt : n = e.test
            · right
              refine ⟨{ freshResult e.test e.package with parentTest := parentOf e.test },
                ?_, rfl, rfl, rfl⟩
              rw [hL n, if_neg hnp, if_pos hnt]
            · left
              rw [hL n, if_neg hnp, if_neg hnt, hnone]
      | none =>
        have hL := creationStep_sub_absent st e habs hg.2 hsl hpp
        constructor
        · intro r hr
          have hnp : n ≠ parentOf e.test := by
            intro hx
            rw [hx, hpp] at hr
            exact Option.noConfusion hr
          have hnt : n ≠ e.test := by
            intro hx
            rw [hx, habs] at hr
            exact Option.noConfusion hr
          refine ⟨r, ?_, rfl, rfl, rfl⟩
          rw [hL n, if_neg hnp, if_neg hnt, hr]
        · intro hnone
          by_cases hnp : n = parentOf e.test
          · right
            refine ⟨{ freshResult (parentOf e.test) e.package with subTests := [e.test] },
              ?_, rfl, rfl, rfl⟩
            rw [hL n, if_pos hnp]
          · by_cases hnt : n = e.test
            · right
              refine ⟨{ freshResult e.test e.package with parentTest := parentOf e.test },
                ?_, rfl, rfl, rfl⟩
              rw [hL n, if_neg hnp, if_pos hnt]
            · left
              rw [hL n, if_neg hnp, if_neg hnt, hnone]
    · have hsl2 : hasSlash e.test = false := by simpa using hsl
      have hL := creationStep_root st e habs hg.2 hsl2
      constructor
      · intro r hr
        have hnt : n ≠ e.test := by
          intro hx
          rw [hx, habs] at hr
          exact Option.noConfusion hr
        refine ⟨r, ?_, rfl, rfl, rfl⟩
        rw [hL n, if_neg hnt, hr]
      · intro hnone
        by_cases hnt : n = e.test
        · right
          refine ⟨freshResult e.test e.package, ?_, rfl, rfl, rfl⟩
          rw [hL n, if_pos hnt]
        · left
          rw [hL n, if_neg hnt, hnone]
  · rw [creationStep_skip st e hg]
    constructor
    · intro r hr
      exact ⟨r, hr, rfl, rfl, rfl⟩
    · intro hnone
      exact Or.inl hnone

theorem creationStep_terminal_isSome (st : AggState) (e : TestEvent)
    (ha : isCreatingAction e.action) :
    (lookupA (creationStep st e).results e.test).isSome = true := by
  cases hl : lookupA st.results e.test with
  | some r =>
    have hskip : creationStep st e = st := creationStep_skip st e (by simp [hl])
    rw [hskip, hl]
    rfl
  | none =>
    by_cases hs : hasSlash e.test = true
    · cases hpp : lookupA st.results (parentOf e.test) with
      | some pr =>
        rw [creationStep_sub_present st e pr hl ha hs hpp e.test]
        rw [if_neg (fun hh => parentOf_ne e.test hs hh.symm), if_pos rfl]
        rfl
      | none =>
        rw [creationStep_sub_absent st e hl ha hs hpp e.test]
        rw [if_neg (fun hh => parentOf_ne e.test hs hh.symm), if_pos rfl]
        rfl
    · rw [creationStep_root st e hl ha (by simpa using hs) e.test, if_pos rfl]
      rfl

theorem stepEvent_startTime_view (st : AggState) (e : TestEvent) (n : String) (hn : n ≠ "") :
    startTimeOf (stepEvent st e) n =
      if isRunFor n e then e.time else startTimeOf st n := by
  unfold stepEvent
  by_cases ht : e.test = ""
  · rw [if_pos ht]
    have hrf : isRunFor n e = false := by
      unfold isRunFor
      rw [if_neg]
      intro hc
      exact hn (hc.1.symm.trans ht)
    simp [hrf]
  · rw [if_neg ht]
    unfold startTimeOf
    rw [actionStep_startTime, creationStep_startTime]
    by_cases hrun : e.action = "run"
    · rw [if_pos hrun, lookupA_setA]
      by_cases hne : n = e.test
      · rw [if_pos hne]
        have hrf : isRunFor n e = true := by
          unfold isRunFor
          rw [if_pos ⟨hne.symm, hrun⟩]
        rw [hrf]
        simp
      · rw [if_neg hne]
        have hrf : isRunFor n e = false := by
          unfold isRunFor
          rw [if_neg]
          intro hc
          exact hne hc.1.symm
        simp [hrf, startTimeOf]
    · have hrf : isRunFor n e = false := by
        unfold isRunFor
        rw [if_neg]
        intro hc
        exact hrun hc.2
      rw [if_neg hrun]
      simp [hrf, startTimeOf]

theorem stepEvent_outputMap_view (st : AggState) (e : TestEvent) (n : String) (hn : n ≠ "") :
    (lookupA (stepEvent st e).testOutputMap n).getD [] =
      if isOutputFor n e then
        (if trimNewline e.output = "" then (lookupA st.testOutputMap n).getD []
         else (lookupA st.testOutputMap n).getD [] ++ [trimNewline e.output])
      else (lookupA st.testOutputMap n).getD [] := by
  unfold stepEvent
  by_cases ht : e.test = ""
  · rw [if_pos ht]
    have hof : isOutputFor n e = false := by
      unfold isOutputFor
      rw [if_neg]
      intro hc
      exact hn (hc.1.symm.trans ht)
    simp [hof]
  · rw [if_neg ht]
    rw [actionStep_outputMap, creationStep_outputMap]
    by_cases hout : e.action = "output"
    · rw [if_pos hout, lookupA_setA]
      by_cases hne : n = e.test
      · rw [if_pos hne]
        have hof : isOutputFor n e = true := by
          unfold isOutputFor
          rw [if_pos ⟨hne.symm, hout⟩]
        rw [hof, hne]
        by_cases hemp : trimNewline e.output = ""
        · rw [if_pos hemp]
          simp
        · rw [if_neg hemp]
          simp
      · rw [if_neg hne]
        have hof : isOutputFor n e = false := by
          unfold isOutputFor
          rw [if_neg]
          intro hc
          exact hne hc.1.symm
        simp [hof]
    · have hof : isOutputFor n e = false := by
        unfold isOutputFor
        rw [if_neg]
        intro hc
        exact hout hc.2
      rw [if_neg hout]
      simp [hof]

theorem actionStep_results_terminal (st : AggState) (e : TestEvent)
    (h : e.action = "pass" ∨ e.action = "fail" ∨ e.action = "skip") :
    ∃ f : TestResult → TestResult,
      (actionStep st e).results = updateA st.results e.test f ∧
      (∀ r, (f r).status = statusOfAction e.action) ∧
      (∀ r, (f r).output = r.output) ∧
      (∀ r, (e.action = "pass" ∨ e.action = "fail") →
        (f r).duration = resolveDuration st e r.duration) ∧
      (∀ r, e.action = "skip" → (f r).duration = r.duration) ∧
      (∀ r, (f r).subTests = r.subTests) := by
  rcases h with h2 | h3 | h4
  · refine ⟨fun r => { r with status := "PASS", duration := resolveDuration st e r.duration },
      actionStep_results_pass st e h2, ?_, fun r => rfl, fun r _ => rfl, ?_, fun r => rfl⟩
    · intro r
      rw [h2]
      rfl
    · intro r hsk
      exfalso
      rw [h2] at hsk
      exact absurd hsk (by decide)
  · refine ⟨fun r => { r with status := "FAIL", duration := resolveDuration st e r.duration },
      actionStep_results_fail st e h3, ?_, fun r => rfl, fun r _ => rfl, ?_, fun r => rfl⟩
    · intro r
      rw [h3]
      rfl
    · intro r hsk
      exfalso
      rw [h3] at hsk
      exact absurd hsk (by decide)
  · refine ⟨fun r => { r with status := "SKIP" },
      actionStep_results_skip st e h4, ?_, fun r => rfl, ?_, fun r _ => rfl, fun r => rfl⟩
    · intro r
      rw [h4]
      rfl
    · intro r hpf
      exfalso
      rcases hpf with hx | hx <;> rw [h4] at hx <;> exact absurd hx (by decide)

theorem status_runPhase (es : List TestEvent) (n : String) (hn : n ≠ "") :
    (∀ r, lookupA (runPhase es).results n = some r →
      r.status = (lastTerminalStatus es n).getD "UNKNOWN") ∧
    (lookupA (runPhase es).results n = none → lastTerminalStatus es n = none) := by
  induction es using List.reverseRecOn with
  | nil =>
    constructor
    · intro r hr
      simp [runPhase, initState, lookupA] at hr
    · intro _
      rfl
  | append_singleton es e ih =>
    rw [runPhase_concat]
    have hlts := lastTerminalStatus_concat es e n
    unfold stepEvent
    by_cases ht : e.test = ""
    · rw [if_pos ht]
      have htf : isTerminalFor n e = false := by
        unfold isTerminalFor
        rw [if_neg]
        intro hc
        exact hn (hc.1.symm.trans ht)
      rw [htf] at hlts
      simp only [Bool.false_eq_true, if_false] at hlts
      rw [hlts]
      exact ih
    · rw [if_neg ht]
      by_cases hterm : e.action = "pass" ∨ e.action = "fail" ∨ e.action = "skip"
      · obtain ⟨f, hres, hfs, _, _⟩ :=
          actionStep_results_terminal (creationStep (runPhase es) e) e hterm
        rw [hres]
        by_cases hne : e.test = n
        · have htt : isTerminalFor n e = true := by
            unfold isTerminalFor
            rw [if_pos ⟨hne, hterm⟩]
          rw [htt] at hlts
          simp at hlts
          rw [hlts]
          have hsome : (lookupA (creationStep (runPhase es) e).results e.test).isSome = true :=
            creationStep_terminal_isSome (runPhase es) e
              (by rcases hterm with h | h | h
                  · exact Or.inr (Or.inl h)
                  · exact Or.inr (Or.inr (Or.inl h))
                  · exact Or.inr (Or.inr (Or.inr h)))
          obtain ⟨r0, hr0⟩ := Option.isSome_iff_exists.mp hsome
          constructor
          · intro r hr
            rw [lookupA_updateA, if_pos hne.symm] at hr
            rw [hne] at hr0
            rw [hr0] at hr
            simp at hr
            have hrf : r = f r0 := hr.symm
            rw [hrf, hfs r0]
            simp
          · intro hnone
            rw [lookupA_updateA, if_pos hne.symm] at hnone
            rw [hne] at hr0
            rw [hr0] at hnone
            simp at hnone
        · have htf : isTerminalFor n e = false := by
            unfold isTerminalFor
            rw [if_neg]
            intro hc
            exact hne hc.1
          rw [htf] at hlts
          simp only [Bool.false_eq_true, if_false] at hlts
          rw [hlts]
          have hlkp : ∀ x : Option TestResult,
              lookupA (updateA (creationStep (runPhase es) e).results e.test f) n =
              lookupA (creationStep (runPhase es) e).results n := by
            intro _
            rw [lookupA_updateA, if_neg (fun hx => hne hx.symm)]
          rw [hlkp none]
          obtain ⟨hv1, hv2⟩ := creationStep_view (runPhase es) e n
          constructor
          · intro r hr
            cases hold : lookupA (runPhase es).results n with
            | some r0 =>
              obtain ⟨r', hr', hst, _, _⟩ := hv1 r0 hold
              rw [hr'] at hr
              have : r = r' := by simpa using hr.symm
              rw [this, hst]
              exact ih.1 r0 hold
            | none =>
              rcases hv2 hold with hcn | ⟨r', hr', hst, _, _⟩
              · rw [hcn] at hr
                exact Option.noConfusion hr
              · rw [hr'] at hr
                have : r = r' := by simpa using hr.symm
                rw [this, hst, ih.2 hold]
                rfl
          · intro hnone
            cases hold : lookupA (runPhase es).results n with
            | some r0 =>
              obtain ⟨r', hr', _, _, _⟩ := hv1 r0 hold
              rw [hr'] at hnone
              exact Option.noConfusion hnone
            | none =>
              exact ih.2 hold
      · have hres := actionStep_results_nonterminal (creationStep (runPhase es) e) e hterm
        rw [hres]
        have htf : isTerminalFor n e = false := by
          unfold isTerminalFor
          rw [if_neg]
          intro hc
          exact hterm hc.2
        rw [htf] at hlts
        simp only [Bool.false_eq_true, if_false] at hlts
        rw [hlts]
        obtain ⟨hv1, hv2⟩ := creationStep_view (runPhase es) e n
        constructor
        · intro r hr
          cases hold : lookupA (runPhase es).results n with
          | some r0 =>
            obtain ⟨r', hr', hst, _, _⟩ := hv1 r0 hold
            rw [hr'] at hr
            have : r = r' := by simpa using hr.symm
            rw [this, hst]
            exact ih.1 r0 hold
          | none =>
            rcases hv2 hold with hcn | ⟨r', hr', hst, _, _⟩
            · rw [hcn] at hr
              exact Option.noConfusion hr
            · rw [hr'] at hr
              have : r = r' := by simpa using hr.symm
              rw [this, hst, ih.2 hold]
              rfl
        · intro hnone
          cases hold : lookupA (runPhase es).results n with
          | some r0 =>
            obtain ⟨r', hr', _, _, _⟩ := hv1 r0 hold
            rw [hr'] at hnone
            exact Option.noConfusion hnone
          | none =>
            exact ih.2 hold

theorem startTime_runPhase (es : List TestEvent) (n : String) (hn : n ≠ "") :
    startTimeOf (runPhase es) n = lastStartTime es n := by
  induction es using List.reverseRecOn with
  | nil => rfl
  | append_singleton es e ih =>
    rw [runPhase_concat, stepEvent_startTime_view _ e n hn, lastStartTime_concat, ih]

theorem outputMap_runPhase (es : List TestEvent) (n : String) (hn : n ≠ "") :
    (lookupA (runPhase es).testOutputMap n).getD [] = outputsFor es n := by
  induction es using List.reverseRecOn with
  | nil => rfl
  | append_singleton es e ih =>
    rw [runPhase_concat, stepEvent_outputMap_view _ e n hn, outputsFor_concat, ih]

theorem lastStartTime_mem (es : List TestEvent) (n : String)
    (h : lastStartTime es n ≠ 0) :
    ∃ a, a ∈ es ∧ a.time = lastStartTime es n := by
  unfold lastStartTime at *
  cases hl : (es.filter (isRunFor n)).getLast? with
  | none => rw [hl] at h; simp at h
  | some a =>
    exact ⟨a, List.mem_of_mem_filter (getLast?_mem hl), rfl⟩

theorem lookupA_updateA_some {α : Type} (m : List (String × α)) (k n : String)
    (f : α → α) (v : α)
    (h : lookupA (updateA m k f) n = some v) : ∃ v0, lookupA m n = some v0 := by
  rw [lookupA_updateA] at h
  by_cases hn : n = k
  · rw [if_pos hn] at h
    cases h0 : lookupA m n with
    | none => rw [h0] at h; simp at h
    | some w => exact ⟨w, rfl⟩
  · rw [if_neg hn] at h
    exact ⟨v, h⟩

theorem actionStep_results_domain (st : AggState) (e : TestEvent) (n : String)
    (r : TestResult) (h : lookupA (actionStep st e).results n = some r) :
    ∃ r0, lookupA st.results n = some r0 := by
  by_cases hterm : e.action = "pass" ∨ e.action = "fail" ∨ e.action = "skip"
  · obtain ⟨f, hres, _, _, _⟩ := actionStep_results_terminal st e hterm
    rw [hres] at h
    exact lookupA_updateA_some _ _ _ _ _ h
  · rw [actionStep_results_nonterminal st e hterm] at h
    exact ⟨r, h⟩

theorem creationStep_new_names (st : AggState) (e : TestEvent) (n : String) (r : TestResult)
    (hr : lookupA (creationStep st e).results n = some r)
    (hold : lookupA st.results n = none) :
    isCreatingAction e.action ∧
      (e.test = n ∨ (hasSlash e.test = true ∧ parentOf e.test = n)) := by
  by_cases hg : (lookupA st.results e.test).isNone = true ∧ isCreatingAction e.action
  · have habs := Option.isNone_iff_eq_none.mp hg.1
    by_cases hsl : hasSlash e.test = true
    · cases hpp : lookupA st.results (parentOf e.test) with
      | some pr =>
        rw [creationStep_sub_present st e pr habs hg.2 hsl hpp n] at hr
        by_cases h1 : n = parentOf e.test
        · exfalso
          rw [h1, hpp] at hold
          exact Option.noConfusion hold
        · rw [if_neg h1] at hr
          by_cases h2 : n = e.test
          · exact ⟨hg.2, Or.inl h2.symm⟩
          · rw [if_neg h2, hold] at hr
            exact Option.noConfusion hr
      | none =>
        rw [creationStep_sub_absent st e habs hg.2 hsl hpp n] at hr
        by_cases h1 : n = parentOf e.test
        · exact ⟨hg.2, Or.inr ⟨hsl, h1.symm⟩⟩
        · rw [if_neg h1] at hr
          by_cases h2 : n = e.test
          · exact ⟨hg.2, Or.inl h2.symm⟩
          · rw [if_neg h2, hold] at hr
            exact Option.noConfusion hr
    · rw [creationStep_root st e habs hg.2 (by simpa using hsl) n] at hr
      by_cases h2 : n = e.test
      · exact ⟨hg.2, Or.inl h2.symm⟩
      · rw [if_neg h2, hold] at hr
        exact Option.noConfusion hr
  · rw [creationStep_skip st e hg, hold] at hr
    exact Option.noConfusion hr

theorem entry_created (es : List TestEvent) (n : String) (r : TestResult)
    (hr : lookupA (runPhase es).results n = some r) :
    ∃ e, e ∈ es ∧ e.test ≠ "" ∧ isCreatingAction e.action ∧
      (e.test = n ∨ (hasSlash e.test = true ∧ parentOf e.test = n)) := by
  induction es using List.reverseRecOn generalizing r with
  | nil => simp [runPhase, initState, lookupA] at hr
  | append_singleton es e ih =>
    rw [runPhase_concat] at hr
    unfold stepEvent at hr
    by_cases ht : e.test = ""
    · rw [if_pos ht] at hr
      obtain ⟨e', hm, h1, h2, h3⟩ := ih r hr
      exact ⟨e', List.mem_append.mpr (Or.inl hm), h1, h2, h3⟩
    · rw [if_neg ht] at hr
      obtain ⟨r1, hr1⟩ := actionStep_results_domain _ e n r hr
      cases hold : lookupA (runPhase es).results n with
      | some r0 =>
        obtain ⟨e', hm, h1, h2, h3⟩ := ih r0 hold
        exact ⟨e', List.mem_append.mpr (Or.inl hm), h1, h2, h3⟩
      | none =>
        obtain ⟨h1, h2⟩ := creationStep_new_names (runPhase es) e n r1 hr1 hold
        exact ⟨e, List.mem_append.mpr (Or.inr (List.mem_singleton.mpr rfl)), ht, h1, h2⟩

theorem creationStep_duration_view (st : AggState) (e : TestEvent) (n : String)
    (r' : TestResult) (hr' : lookupA (creationStep st e).results n = some r') :
    (∃ r0, lookupA st.results n = some r0 ∧ r'.duration = r0.duration) ∨
      (lookupA st.results n = none ∧ r'.duration = 0) := by
  obtain ⟨hv1, hv2⟩ := creationStep_view st e n
  cases hold : lookupA st.results n with
  | some r0 =>
    obtain ⟨r2, hr2, _, hdur, _⟩ := hv1 r0 hold
    rw [hr'] at hr2
    have heq : r' = r2 := by simpa using hr2
    left
    refine ⟨r0, rfl, ?_⟩
    rw [heq]
    exact hdur
  | none =>
    rcases hv2 hold with hcn | ⟨r2, hr2, _, hdur, _⟩
    · rw [hcn] at hr'
      exact Option.noConfusion hr'
    · rw [hr'] at hr2
      have heq : r' = r2 := by simpa using hr2
      right
      refine ⟨rfl, ?_⟩
      rw [heq]
      exact hdur

theorem actionStep_duration_pres (st : AggState) (e : TestEvent) (n : String)
    (hno : ¬(e.test = n ∧ (e.action = "pass" ∨ e.action = "fail")))
    (r : TestResult) (hr : lookupA (actionStep st e).results n = some r) :
    ∃ r0, lookupA st.results n = some r0 ∧ r.duration = r0.duration := by
  by_cases hterm : e.action = "pass" ∨ e.action = "fail" ∨ e.action = "skip"
  · obtain ⟨f, hres, _, _, hfd1, hfd2, _⟩ := actionStep_results_terminal st e hterm
    rw [hres, lookupA_updateA] at hr
    by_cases hne : n = e.test
    · rw [if_pos hne] at hr
      cases h0 : lookupA st.results n with
      | none =>
        rw [h0] at hr
        simp at hr
      | some r0 =>
        rw [h0] at hr
        simp at hr
        have hskip : e.action = "skip" := by
          rcases hterm with h | h | h
          · exact absurd ⟨hne.symm, Or.inl h⟩ hno
          · exact absurd ⟨hne.symm, Or.inr h⟩ hno
          · exact h
        refine ⟨r0, rfl, ?_⟩
        rw [← hr]
        exact hfd2 r0 hskip
    · rw [if_neg hne] at hr
      exact ⟨r, hr, rfl⟩
  · rw [actionStep_results_nonterminal st e hterm] at hr
    exact ⟨r, hr, rfl⟩

theorem duration_zero_runPhase (es : List TestEvent) (n : String) :
    (∀ ev ∈ es, ¬(ev.test = n ∧ (ev.action = "pass" ∨ ev.action = "fail"))) →
    ∀ r, lookupA (runPhase es).results n = some r → r.duration = 0 := by
  induction es using List.reverseRecOn with
  | nil =>
    intro _ r hr
    simp [runPhase, initState, lookupA] at hr
  | append_singleton es e ih =>
    intro hnopf r hr
    rw [runPhase_concat] at hr
    have hes : ∀ ev ∈ es, ¬(ev.test = n ∧ (ev.action = "pass" ∨ ev.action = "fail")) :=
      fun ev hv => hnopf ev (List.mem_append.mpr (Or.inl hv))
    have he : ¬(e.test = n ∧ (e.action = "pass" ∨ e.action = "fail")) :=
      hnopf e (List.mem_append.mpr (Or.inr (List.mem_singleton.mpr rfl)))
    unfold stepEvent at hr
    by_cases ht : e.test = ""
    · rw [if_pos ht] at hr
      exact ih hes r hr
    · rw [if_neg ht] at hr
      obtain ⟨r1, hr1, hd1⟩ := actionStep_duration_pres _ e n he r hr
      rcases creationStep_duration_view (runPhase es) e n r1 hr1 with
        ⟨r0, hold, hdur⟩ | ⟨_, hdur⟩
      · rw [hd1, hdur]
        exact ih hes r0 hold
      · rw [hd1, hdur]

theorem duration_nonneg_runPhase (es : List TestEvent) :
    es.Pairwise (fun a b => a.time ≤ b.time) →
    ∀ n r, lookupA (runPhase es).results n = some r → 0 ≤ r.duration := by
  induction es using List.reverseRecOn with
  | nil =>
    intro _ n r hr
    simp [runPhase, initState, lookupA] at hr
  | append_singleton es e ih =>
    intro hord n r hr
    have hp := List.pairwise_append.mp hord
    have hbound : ∀ a ∈ es, a.time ≤ e.time :=
      fun a ha => hp.2.2 a ha e (List.mem_singleton.mpr rfl)
    rw [runPhase_concat] at hr
    unfold stepEvent at hr
    by_cases ht : e.test = ""
    · rw [if_pos ht] at hr
      exact ih hp.1 n r hr
    · rw [if_neg ht] at hr
      by_cases hterm : e.action = "pass" ∨ e.action = "fail" ∨ e.action = "skip"
      · obtain ⟨f, hres, _, _, hfd1, hfd2, _⟩ :=
          actionStep_results_terminal (creationStep (runPhase es) e) e hterm
        rw [hres, lookupA_updateA] at hr
        by_cases hne : n = e.test
        · rw [if_pos hne] at hr
          cases h0 : lookupA (creationStep (runPhase es) e).results n with
          | none =>
            rw [h0] at hr
            simp at hr
          | some r0 =>
            rw [h0] at hr
            simp at hr
            have hr0dur : 0 ≤ r0.duration := by
              rcases creationStep_duration_view (runPhase es) e n r0 h0 with
                ⟨rr, hold, hdur⟩ | ⟨_, hdur⟩
              · rw [hdur]
                exact ih hp.1 n rr hold
              · rw [hdur]
            by_cases hskip : e.action = "skip"
            · rw [← hr, hfd2 r0 hskip]
              exact hr0dur
            · have hpf : e.action = "pass" ∨ e.action = "fail" := by
                rcases hterm with h | h | h
                · exact Or.inl h
                · exact Or.inr h
                · exact absurd h hskip
              rw [← hr, hfd1 r0 hpf]
              unfold resolveDuration
              by_cases hel : 0 < e.elapsed
              · rw [if_pos hel]
                exact le_of_lt hel
              · rw [if_neg hel]
                by_cases hst : startTimeOf (creationStep (runPhase es) e) e.test ≠ 0
                · rw [if_pos hst]
                  have hsteq : startTimeOf (creationStep (runPhase es) e) e.test =
                      lastStartTime es e.test := by
                    unfold startTimeOf
                    rw [creationStep_startTime]
                    exact startTime_runPhase es e.test ht
                  rw [hsteq] at hst ⊢
                  obtain ⟨a, ham, hat⟩ := lastStartTime_mem es e.test hst
                  rw [← hat]
                  have := hbound a ham
                  linarith
                · rw [if_neg hst]
                  exact hr0dur
        · rw [if_neg hne] at hr
          rcases creationStep_duration_view (runPhase es) e n r hr with
            ⟨rr, hold, hdur⟩ | ⟨_, hdur⟩
          · rw [hdur]
            exact ih hp.1 n rr hold
          · rw [hdur]
      · rw [actionStep_results_nonterminal _ e hterm] at hr
        rcases creationStep_duration_view (runPhase es) e n r hr with
          ⟨rr, hold, hdur⟩ | ⟨_, hdur⟩
        · rw [hdur]
          exact ih hp.1 n rr hold
        · rw [hdur]

theorem status_closed_runPhase (es : List TestEvent) :
    ∀ n r, lookupA (runPhase es).results n = some r →
      r.status = "UNKNOWN" ∨ r.status = "PASS" ∨ r.status = "FAIL" ∨ r.status = "SKIP" := by
  induction es using List.reverseRecOn with
  | nil =>
    intro n r hr
    simp [runPhase, initState, lookupA] at hr
  | append_singleton es e ih =>
    intro n r hr
    rw [runPhase_concat] at hr
    unfold stepEvent at hr
    by_cases ht : e.test = ""
    · rw [if_pos ht] at hr
      exact ih n r hr
    · rw [if_neg ht] at hr
      have hstview : ∀ r1, lookupA (creationStep (runPhase es) e).results n = some r1 →
          r1.status = "UNKNOWN" ∨ r1.status = "PASS" ∨ r1.status = "FAIL" ∨
          r1.status = "SKIP" := by
        intro r1 hr1
        obtain ⟨hv1, hv2⟩ := creationStep_view (runPhase es) e n
        cases hold : lookupA (runPhase es).results n with
        | some r0 =>
          obtain ⟨r2, hr2, hst, _, _⟩ := hv1 r0 hold
          rw [hr1] at hr2
          have heq : r1 = r2 := by simpa using hr2
          rw [heq, hst]
          exact ih n r0 hold
        | none =>
          rcases hv2 hold with hcn | ⟨r2, hr2, hst, _, _⟩
          · rw [hcn] at hr1
            exact Option.noConfusion hr1
          · rw [hr1] at hr2
            have heq : r1 = r2 := by simpa using hr2
            rw [heq, hst]
            exact Or.inl rfl
      by_cases hterm : e.action = "pass" ∨ e.action = "fail" ∨ e.action = "skip"
      · obtain ⟨f, hres, hfs, _, _, _⟩ :=
          actionStep_results_terminal (creationStep (runPhase es) e) e hterm
        rw [hres, lookupA_updateA] at hr
        by_cases hne : n = e.test
        · rw [if_pos hne] at hr
          cases h0 : lookupA (creationStep (runPhase es) e).results n with
          | none =>
            rw [h0] at hr
            simp at hr
          | some r0 =>
            rw [h0] at hr
            simp at hr
            rw [← hr, hfs r0]
            unfold statusOfAction
            by_cases ha1 : e.action = "pass"
            · rw [if_pos ha1]
              exact Or.inr (Or.inl rfl)
            · rw [if_neg ha1]
              by_cases ha2 : e.action = "fail"
              · rw [if_pos ha2]
                exact Or.inr (Or.inr (Or.inl rfl))
              · rw [if_neg ha2]
                exact Or.inr (Or.inr (Or.inr rfl))
        · rw [if_neg hne] at hr
          exact hstview r hr
      · rw [actionStep_results_nonterminal _ e hterm] at hr
        exact hstview r hr

theorem scanLines_ok (st : AggState) (es : List TestEvent) :
    scanLines st (es.map InputLine.ok) = Except.ok (es.foldl stepEvent st) := by
  induction es generalizing st with
  | nil => rfl
  | cons e rest ih =>
    rw [List.map_cons]
    show scanLines (stepEvent st e) (rest.map InputLine.ok) = _
    rw [ih]
    rfl

theorem processTestEvents_ok (es : List TestEvent) :
    processTestEvents (es.map InputLine.ok) = Except.ok (aggregateReport es) := by
  unfold processTestEvents aggregateReport runPhase
  rw [scanLines_ok]
  rfl

theorem scanLines_bad (st : AggState) (good : List TestEvent) (msg : String)
    (rest : List InputLine) :
    scanLines st (good.map InputLine.ok ++ InputLine.bad msg :: rest) =
      Except.error ("error unmarshalling JSON: " ++ msg) := by
  induction good generalizing st with
  | nil => rfl
  | cons e g ih =>
    rw [List.map_cons, List.cons_append]
    show scanLines (stepEvent st e) (g.map InputLine.ok ++ InputLine.bad msg :: rest) = _
    exact ih (stepEvent st e)

theorem duration_after_terminal (pre : List TestEvent) (e : TestEvent)
    (hn : e.test ≠ "") (ha : e.action = "pass" ∨ e.action = "fail") :
    ∃ r, lookupA (runPhase (pre ++ [e])).results e.test = some r ∧
      r.status = statusOfAction e.action ∧
      r.duration = (if 0 < e.elapsed then e.elapsed
        else if lastStartTime pre e.test ≠ 0 then e.time - lastStartTime pre e.test
        else ((lookupA (runPhase pre).results e.test).map TestResult.duration).getD 0) := by
  rw [runPhase_concat]
  unfold stepEvent
  rw [if_neg hn]
  have hterm : e.action = "pass" ∨ e.action = "fail" ∨ e.action = "skip" := by
    rcases ha with h | h
    · exact Or.inl h
    · exact Or.inr (Or.inl h)
  obtain ⟨f, hres, hfs, _, hfd1, _⟩ :=
    actionStep_results_terminal (creationStep (runPhase pre) e) e hterm
  have hcreate : isCreatingAction e.action := by
    rcases ha with h | h
    · exact Or.inr (Or.inl h)
    · exact Or.inr (Or.inr (Or.inl h))
  have hsome := creationStep_terminal_isSome (runPhase pre) e hcreate
  obtain ⟨r0, hr0⟩ := Option.isSome_iff_exists.mp hsome
  refine ⟨f r0, ?_, hfs r0, ?_⟩
  · rw [hres, lookupA_updateA, if_pos rfl, hr0]
    rfl
  · rw [hfd1 r0 ha]
    unfold resolveDuration
    have hsteq : startTimeOf (creationStep (runPhase pre) e) e.test =
        lastStartTime pre e.test := by
      unfold startTimeOf
      rw [creationStep_startTime]
      exact startTime_runPhase pre e.test hn
    rw [hsteq]
    by_cases hel : 0 < e.elapsed
    · rw [if_pos hel, if_pos hel]
    · rw [if_neg hel, if_neg hel]
      by_cases hst : lastStartTime pre e.test ≠ 0
      · rw [if_pos hst, if_pos hst]
      · rw [if_neg hst, if_neg hst]
        rcases creationStep_duration_view (runPhase pre) e e.test r0 hr0 with
          ⟨rr, hold, hdur⟩ | ⟨hold, hdur⟩
        · rw [hdur, hold]
          rfl
        · rw [hdur, hold]
          rfl

theorem countFold_results_pres (l : List (String × TestResult)) (rd : ReportData) :
    (l.foldl countFold rd).results = rd.results := by
  induction l generalizing rd with
  | nil => rfl
  | cons kv rest ih =>
    rw [List.foldl_cons, ih]
    unfold countFold
    by_cases hsub : kv.2.isSubTest = true
    · rw [if_pos hsub]
    · rw [if_neg hsub]
      by_cases h1 : kv.2.status = "PASS"
      · rw [if_pos h1]
      · rw [if_neg h1]
        by_cases h2 : kv.2.status = "FAIL"
        · rw [if_pos h2]
        · rw [if_neg h2]
          by_cases h3 : kv.2.status = "SKIP"
          · rw [if_pos h3]
          · rw [if_neg h3]

theorem keys_flushOutputs (om : List (String × List String))
    (m : List (String × TestResult)) :
    (flushOutputs m om).map Prod.fst = m.map Prod.fst := by
  induction om generalizing m with
  | nil => rfl
  | cons kv rest ih =>
    have hunf : flushOutputs m (kv :: rest) =
        flushOutputs (updateA m kv.1 (fun r => { r with output := kv.2 })) rest := rfl
    rw [hunf, ih, keys_updateA]

theorem aggResults_eq_flush (es : List TestEvent) :
    aggResults es = flushOutputs (runPhase es).results (runPhase es).testOutputMap := by
  unfold aggResults aggregateReport finalize
  simp only
  rw [countFold_results_pres]

theorem lookupA_aggResults (es : List TestEvent) (n : String) (hn : n ≠ "") :
    lookupA (aggResults es) n =
      (lookupA (runPhase es).results n).map
        (fun r => { r with output := outputsFor es n }) := by
  rw [aggResults_eq_flush,
    lookupA_flushOutputs (runPhase es).testOutputMap (runPhase es).results
      (outMap_nodup_runPhase es) n]
  have hom := outputMap_runPhase es n hn
  cases homl : lookupA (runPhase es).testOutputMap n with
  | some os =>
    rw [homl] at hom
    simp only [Option.getD_some] at hom
    rw [hom]
  | none =>
    rw [homl] at hom
    simp only [Option.getD_none] at hom
    cases hl : lookupA (runPhase es).results n with
    | none => rfl
    | some r =>
      have hrout : r.output = [] := (modelInv_runPhase es).outNil n r hl
      rw [← hom, ← hrout]
      rfl

theorem countFold_counts (rd : ReportData) (kv : String × TestResult) :
    (countFold rd kv).totalTests = rd.totalTests + (if isRootKV kv then 1 else 0) ∧
    (countFold rd kv).totalDuration =
      rd.totalDuration + (if isRootKV kv then kv.2.duration else 0) ∧
    (countFold rd kv).passedTests =
      rd.passedTests + (if rootWithStatus "PASS" kv then 1 else 0) ∧
    (countFold rd kv).failedTests =
      rd.failedTests + (if rootWithStatus "FAIL" kv then 1 else 0) ∧
    (countFold rd kv).skippedTests =
      rd.skippedTests + (if rootWithStatus "SKIP" kv then 1 else 0) := by
  unfold countFold isRootKV rootWithStatus
  by_cases hsub : kv.2.isSubTest = true
  · simp [hsub]
  · have hsub2 : kv.2.isSubTest = false := by simpa using hsub
    by_cases h1 : kv.2.status = "PASS"
    · simp [hsub2, h1]
    · by_cases h2 : kv.2.status = "FAIL"
      · simp [hsub2, h1, h2]
      · by_cases h3 : kv.2.status = "SKIP"
        · simp [hsub2, h1, h2, h3]
        · simp [hsub2, h1, h2, h3]

theorem countFold_total (l : List (String × TestResult)) (rd : ReportData) :
    (l.foldl countFold rd).totalTests = rd.totalTests + l.countP isRootKV := by
  induction l generalizing rd with
  | nil => simp
  | cons kv rest ih =>
    rw [List.foldl_cons, ih, List.countP_cons, (countFold_counts rd kv).1]
    by_cases hroot : isRootKV kv = true
    · simp [hroot]
      omega
    · have h2 : isRootKV kv = false := by simpa using hroot
      simp [h2]

theorem countFold_passed (l : List (String × TestResult)) (rd : ReportData) :
    (l.foldl countFold rd).passedTests =
      rd.passedTests + l.countP (rootWithStatus "PASS") := by
  induction l generalizing rd with
  | nil => simp
  | cons kv rest ih =>
    rw [List.foldl_cons, ih, List.countP_cons, (countFold_counts rd kv).2.2.1]
    by_cases hroot : rootWithStatus "PASS" kv = true
    · simp [hroot]
      omega
    · have h2 : rootWithStatus "PASS" kv = false := by simpa using hroot
      simp [h2]

theorem countFold_failed (l : List (String × TestResult)) (rd : ReportData) :
    (l.foldl countFold rd).failedTests =
      rd.failedTests + l.countP (rootWithStatus "FAIL") := by
  induction l generalizing rd with
  | nil => simp
  | cons kv rest ih =>
    rw [List.foldl_cons, ih, List.countP_cons, (countFold_counts rd kv).2.2.2.1]
    by_cases hroot : rootWithStatus "FAIL" kv = true
    · simp [hroot]
      omega
    · have h2 : rootWithStatus "FAIL" kv = false := by simpa using hroot
      simp [h2]

theorem countFold_skipped (l : List (String × TestResult)) (rd : ReportData) :
    (l.foldl countFold rd).skippedTests =
      rd.skippedTests + l.countP (rootWithStatus "SKIP") := by
  induction l generalizing rd with
  | nil => simp
  | cons kv rest ih =>
    rw [List.foldl_cons, ih, List.countP_cons, (countFold_counts rd kv).2.2.2.2]
    by_cases hroot : rootWithStatus "SKIP" kv = true
    · simp [hroot]
      omega
    · have h2 : rootWithStatus "SKIP" kv = false := by simpa using hroot
      simp [h2]

theorem countFold_dur (l : List (String × TestResult)) (rd : ReportData) :
    (l.foldl countFold rd).totalDuration =
      rd.totalDuration + ((l.filter isRootKV).map (fun kv => kv.2.duration)).sum := by
  induction l generalizing rd with
  | nil => simp
  | cons kv rest ih =>
    rw [List.foldl_cons, ih, (countFold_counts rd kv).2.1, List.filter_cons]
    by_cases hroot : isRootKV kv = true
    · rw [if_pos hroot, if_pos hroot]
      simp only [List.map_cons, List.sum_cons]
      ring
    · have h2 : isRootKV kv = false := by simpa using hroot
      rw [h2]
      simp

theorem finalize_totalTests (st : AggState) :
    (finalize st).totalTests =
      ((flushOutputs st.results st.testOutputMap).foldl countFold
        ⟨0, 0, 0, 0, 0, flushOutputs st.results st.testOutputMap, []⟩).totalTests := rfl

theorem finalize_passedTests (st : AggState) :
    (finalize st).passedTests =
      ((flushOutputs st.results st.testOutputMap).foldl countFold
        ⟨0, 0, 0, 0, 0, flushOutputs st.results st.testOutputMap, []⟩).passedTests := rfl

theorem finalize_failedTests (st : AggState) :
    (finalize st).failedTests =
      ((flushOutputs st.results st.testOutputMap).foldl countFold
        ⟨0, 0, 0, 0, 0, flushOutputs st.results st.testOutputMap, []⟩).failedTests := rfl

theorem finalize_skippedTests (st : AggState) :
    (finalize st).skippedTests =
      ((flushOutputs st.results st.testOutputMap).foldl countFold
        ⟨0, 0, 0, 0, 0, flushOutputs st.results st.testOutputMap, []⟩).skippedTests := rfl

theorem finalize_totalDuration (st : AggState) :
    (finalize st).totalDuration =
      ((flushOutputs st.results st.testOutputMap).foldl countFold
        ⟨0, 0, 0, 0, 0, flushOutputs st.results st.testOutputMap, []⟩).totalDuration := rfl

theorem aggregateReport_counts (es : List TestEvent) :
    (aggregateReport es).totalTests = (aggResults es).countP isRootKV ∧
    (aggregateReport es).passedTests = (aggResults es).countP (rootWithStatus "PASS") ∧
    (aggregateReport es).failedTests = (aggResults es).countP (rootWithStatus "FAIL") ∧
    (aggregateReport es).skippedTests = (aggResults es).countP (rootWithStatus "SKIP") ∧
    (aggregateReport es).totalDuration =
      (((aggResults es).filter isRootKV).map (fun kv => kv.2.duration)).sum := by
  rw [aggResults_eq_flush]
  unfold aggregateReport
  refine ⟨?_, ?_, ?_, ?_, ?_⟩
  · rw [finalize_totalTests, countFold_total]
    exact Nat.zero_add _
  · rw [finalize_passedTests, countFold_passed]
    exact Nat.zero_add _
  · rw [finalize_failedTests, countFold_failed]
    exact Nat.zero_add _
  · rw [finalize_skippedTests, countFold_skipped]
    exact Nat.zero_add _
  · rw [finalize_totalDuration, countFold_dur]
    exact zero_add _

theorem aggResults_nodupKeys (es : List TestEvent) :
    ((aggResults es).map Prod.fst).Nodup := by
  rw [aggResults_eq_flush, keys_flushOutputs]
  exact (modelInv_runPhase es).nodup

theorem aggResults_entry_status (es : List TestEvent) (n : String) (rf : TestResult)
    (hl : lookupA (aggResults es) n = some rf) :
    ∃ r, lookupA (runPhase es).results n = some r ∧ rf.status = r.status ∧
      rf.duration = r.duration ∧ rf.isSubTest = r.isSubTest ∧
      rf.parentTest = r.parentTest ∧ rf.subTests = r.subTests ∧ rf.name = r.name := by
  rw [aggResults_eq_flush,
    lookupA_flushOutputs (runPhase es).testOutputMap (runPhase es).results
      (outMap_nodup_runPhase es) n] at hl
  cases hom : lookupA (runPhase es).testOutputMap n with
  | some os =>
    rw [hom] at hl
    cases hrl : lookupA (runPhase es).results n with
    | none =>
      rw [hrl] at hl
      exact Option.noConfusion hl
    | some r =>
      rw [hrl] at hl
      simp only [Option.map_some'] at hl
      have heq : rf = { r with output := os } := by simpa using hl.symm
      exact ⟨r, rfl, by rw [heq], by rw [heq], by rw [heq], by rw [heq], by rw [heq],
        by rw [heq]⟩
  | none =>
    rw [hom] at hl
    exact ⟨rf, hl, rfl, rfl, rfl, rfl, rfl, rfl⟩

theorem aggResults_status_closed (es : List TestEvent) :
    ∀ kv ∈ aggResults es, kv.2.status = "UNKNOWN" ∨ kv.2.status = "PASS" ∨
      kv.2.status = "FAIL" ∨ kv.2.status = "SKIP" := by
  intro kv hm
  have hl : lookupA (aggResults es) kv.1 = some kv.2 := by
    have hnd := aggResults_nodupKeys es
    rcases kv with ⟨k, v⟩
    exact (mem_iff_lookupA (aggResults es) k v hnd).mp hm
  obtain ⟨r, hr, hst, _, _, _, _, _⟩ := aggResults_entry_status es kv.1 kv.2 hl
  rw [hst]
  exact status_closed_runPhase es kv.1 r hr

theorem countP_root_partition (l : List (String × TestResult))
    (hcl : ∀ kv ∈ l, kv.2.status = "UNKNOWN" ∨ kv.2.status = "PASS" ∨
      kv.2.status = "FAIL" ∨ kv.2.status = "SKIP") :
    l.countP isRootKV =
      l.countP (rootWithStatus "PASS") + l.countP (rootWithStatus "FAIL") +
      l.countP (rootWithStatus "SKIP") + l.countP (rootWithStatus "UNKNOWN") := by
  induction l with
  | nil => rfl
  | cons kv rest ih =>
    have hkv := hcl kv (List.mem_cons_self _ _)
    have ihr := ih (fun x hx => hcl x (List.mem_cons_of_mem _ hx))
    simp only [List.countP_cons]
    by_cases hsub : kv.2.isSubTest = true
    · have h1 : isRootKV kv = false := by simp [isRootKV, hsub]
      have h2 : ∀ s, rootWithStatus s kv = false := fun s => by simp [rootWithStatus, hsub]
      rw [h1, h2, h2, h2, h2, ihr]
      simp
    · have hsub2 : kv.2.isSubTest = false := by simpa using hsub
      have h1 : isRootKV kv = true := by simp [isRootKV, hsub2]
      rcases hkv with h | h | h | h
      · have e1 : rootWithStatus "PASS" kv = false := by simp [rootWithStatus, hsub2, h]
        have e2 : rootWithStatus "FAIL" kv = false := by simp [rootWithStatus, hsub2, h]
        have e3 : rootWithStatus "SKIP" kv = false := by simp [rootWithStatus, hsub2, h]
        have e4 : rootWithStatus "UNKNOWN" kv = true := by simp [rootWithStatus, hsub2, h]
        rw [h1, e1, e2, e3, e4, ihr]
        simp
        omega
      · have e1 : rootWithStatus "PASS" kv = true := by simp [rootWithStatus, hsub2, h]
        have e2 : rootWithStatus "FAIL" kv = false := by simp [rootWithStatus, hsub2, h]
        have e3 : rootWithStatus "SKIP" kv = false := by simp [rootWithStatus, hsub2, h]
        have e4 : rootWithStatus "UNKNOWN" kv = false := by simp [rootWithStatus, hsub2, h]
        rw [h1, e1, e2, e3, e4, ihr]
        simp
        omega
      · have e1 : rootWithStatus "PASS" kv = false := by simp [rootWithStatus, hsub2, h]
        have e2 : rootWithStatus "FAIL" kv = true := by simp [rootWithStatus, hsub2, h]
        have e3 : rootWithStatus "SKIP" kv = false := by simp [rootWithStatus, hsub2, h]
        have e4 : rootWithStatus "UNKNOWN" kv = false := by simp [rootWithStatus, hsub2, h]
        rw [h1, e1, e2, e3, e4, ihr]
        simp
        omega
      · have e1 : rootWithStatus "PASS" kv = false := by simp [rootWithStatus, hsub2, h]
        have e2 : rootWithStatus "FAIL" kv = false := by simp [rootWithStatus, hsub2, h]
        have e3 : rootWithStatus "SKIP" kv = true := by simp [rootWithStatus, hsub2, h]
        have e4 : rootWithStatus "UNKNOWN" kv = false := by simp [rootWithStatus, hsub2, h]
        rw [h1, e1, e2, e3, e4, ihr]
        simp
        omega

theorem actionStep_keys (st : AggState) (e : TestEvent) :
    (actionStep st e).results.map Prod.fst = st.results.map Prod.fst := by
  by_cases hterm : e.action = "pass" ∨ e.action = "fail" ∨ e.action = "skip"
  · obtain ⟨f, hres, _⟩ := actionStep_results_terminal st e hterm
    rw [hres, keys_updateA]
  · rw [actionStep_results_nonterminal st e hterm]

theorem stepEvent_keys (st : AggState) (e : TestEvent) :
    (stepEvent st e).results.map Prod.fst = namesStep (st.results.map Prod.fst) e := by
  unfold stepEvent namesStep
  by_cases ht : e.test = ""
  · rw [if_pos ht, if_pos ht]
  · rw [if_neg ht, if_neg ht, actionStep_keys]
    by_cases hg : (lookupA st.results e.test).isNone = true ∧ isCreatingAction e.action
    · have habs : lookupA st.results e.test = none := Option.isNone_iff_eq_none.mp hg.1
      have hnotin : e.test ∉ st.results.map Prod.fst := (lookupA_none_iff _ _).mp habs
      rw [if_pos ⟨hnotin, hg.2⟩]
      by_cases hsl : hasSlash e.test = true
      · rw [if_pos hsl]
        cases hpp : lookupA st.results (parentOf e.test) with
        | some pr =>
          have hin : parentOf e.test ∈ st.results.map Prod.fst := by
            by_contra hno
            rw [(lookupA_none_iff _ _).mpr hno] at hpp
            exact Option.noConfusion hpp
          rw [if_neg (by simp [hin])]
          exact creationStep_sub_present_keys st e pr habs hg.2 hsl hpp
        | none =>
          have hnin : parentOf e.test ∉ st.results.map Prod.fst :=
            (lookupA_none_iff _ _).mp hpp
          rw [if_pos hnin]
          exact creationStep_sub_absent_keys st e habs hg.2 hsl hpp
      · have hsl2 : hasSlash e.test = false := by simpa using hsl
        rw [if_neg hsl]
        exact creationStep_root_keys st e habs hg.2 hsl2
    · rw [creationStep_skip st e hg]
      rw [if_neg (fun hc =>
        hg ⟨by simp [(lookupA_none_iff st.results e.test).mpr hc.1], hc.2⟩)]

theorem keys_runPhase (es : List TestEvent) :
    (runPhase es).results.map Prod.fst = createdNames es := by
  have hgen : ∀ st names, st.results.map Prod.fst = names →
      (es.foldl stepEvent st).results.map Prod.fst = es.foldl namesStep names := by
    induction es with
    | nil =>
      intro st names h
      exact h
    | cons e rest ih =>
      intro st names h
      apply ih
      rw [stepEvent_keys, h]
  exact hgen initState [] rfl

theorem aggResults_keys (es : List TestEvent) :
    (aggResults es).map Prod.fst = createdNames es := by
  rw [aggResults_eq_flush, keys_flushOutputs, keys_runPhase]

theorem actionStep_subTests_pres (st : AggState) (e : TestEvent) (n : String)
    (r : TestResult) (hr : lookupA (actionStep st e).results n = some r) :
    ∃ r0, lookupA st.results n = some r0 ∧ r.subTests = r0.subTests := by
  by_cases hterm : e.action = "pass" ∨ e.action = "fail" ∨ e.action = "skip"
  · obtain ⟨f, hres, _, _, _, _, hfsub⟩ := actionStep_results_terminal st e hterm
    rw [hres, lookupA_updateA] at hr
    by_cases hne : n = e.test
    · rw [if_pos hne] at hr
      cases h0 : lookupA st.results n with
      | none =>
        rw [h0] at hr
        simp at hr
      | some r0 =>
        rw [h0] at hr
        simp at hr
        refine ⟨r0, rfl, ?_⟩
        rw [← hr]
        exact hfsub r0
    · rw [if_neg hne] at hr
      exact ⟨r, hr, rfl⟩
  · rw [actionStep_results_nonterminal st e hterm] at hr
    exact ⟨r, hr, rfl⟩

theorem subTests_sublist_creationStep (st : AggState) (e : TestEvent)
    (h : ∀ n r, lookupA st.results n = some r →
      r.subTests.Sublist (st.results.map Prod.fst)) :
    ∀ n r, lookupA (creationStep st e).results n = some r →
      r.subTests.Sublist ((creationStep st e).results.map Prod.fst) := by
  intro n r hr
  by_cases hg : (lookupA st.results e.test).isNone = true ∧ isCreatingAction e.action
  · have habs : lookupA st.results e.test = none := Option.isNone_iff_eq_none.mp hg.1
    by_cases hsl : hasSlash e.test = true
    · cases hpp : lookupA st.results (parentOf e.test) with
      | some pr =>
        rw [creationStep_sub_present st e pr habs hg.2 hsl hpp n] at hr
        rw [creationStep_sub_present_keys st e pr habs hg.2 hsl hpp]
        by_cases h1 : n = parentOf e.test
        · rw [if_pos h1] at hr
          have hre : r = { pr with subTests := pr.subTests ++ [e.test] } := by
            simpa using hr.symm
          rw [hre]
          exact List.Sublist.append (h _ pr hpp) (List.Sublist.refl _)
        · rw [if_neg h1] at hr
          by_cases h2 : n = e.test
          · rw [if_pos h2] at hr
            have hre : r =
                { freshResult e.test e.package with parentTest := parentOf e.test } := by
              simpa using hr.symm
            rw [hre]
            exact List.nil_sublist _
          · rw [if_neg h2] at hr
            exact (h n r hr).trans (List.sublist_append_left _ _)
      | none =>
        rw [creationStep_sub_absent st e habs hg.2 hsl hpp n] at hr
        rw [creationStep_sub_absent_keys st e habs hg.2 hsl hpp]
        by_cases h1 : n = parentOf e.test
        · rw [if_pos h1] at hr
          have hre : r =
              { freshResult (parentOf e.test) e.package with subTests := [e.test] } := by
            simpa using hr.symm
          rw [hre]
          exact ((List.sublist_append_right (st.results.map Prod.fst) [e.test]).trans
            (List.sublist_append_left _ _))
        · rw [if_neg h1] at hr
          by_cases h2 : n = e.test
          · rw [if_pos h2] at hr
            have hre : r =
                { freshResult e.test e.package with parentTest := parentOf e.test } := by
              simpa using hr.symm
            rw [hre]
            exact List.nil_sublist _
          · rw [if_neg h2] at hr
            exact ((h n r hr).trans (List.sublist_append_left _ _)).trans
              (List.sublist_append_left _ _)
    · have hsl2 : hasSlash e.test = false := by simpa using hsl
      rw [creationStep_root st e habs hg.2 hsl2 n] at hr
      rw [creationStep_root_keys st e habs hg.2 hsl2]
      by_cases h2 : n = e.test
      · rw [if_pos h2] at hr
        have hre : r = freshResult e.test e.package := by simpa using hr.symm
        rw [hre]
        exact List.nil_sublist _
      · rw [if_neg h2] at hr
        exact (h n r hr).trans (List.sublist_append_left _ _)
  · rw [creationStep_skip st e hg] at hr ⊢
    exact h n r hr

theorem subTests_sublist_runPhase (es : List TestEvent) :
    ∀ n r, lookupA (runPhase es).results n = some r →
      r.subTests.Sublist ((runPhase es).results.map Prod.fst) := by
  have hgen : ∀ st, (∀ n r, lookupA st.results n = some r →
      r.subTests.Sublist (st.results.map Prod.fst)) →
      ∀ n r, lookupA (es.foldl stepEvent st).results n = some r →
        r.subTests.Sublist ((es.foldl stepEvent st).results.map Prod.fst) := by
    induction es with
    | nil =>
      intro st h
      exact h
    | cons e rest ih =>
      intro st h
      apply ih
      intro n r hr
      unfold stepEvent at hr ⊢
      by_cases ht : e.test = ""
      · rw [if_pos ht] at hr ⊢
        exact h n r hr
      · rw [if_neg ht] at hr ⊢
        rw [actionStep_keys]
        obtain ⟨r0, hr0, hsub⟩ := actionStep_subTests_pres _ e n r hr
        rw [hsub]
        exact subTests_sublist_creationStep st e h n r0 hr0
  intro n r hr
  exact hgen initState (fun n r hx => by simp [initState, lookupA] at hx) n r hr

/-- C1 (corrected, counterexample): a stream containing only a run event
for the doubly nested name A/B/C yields a subtest entry A/B whose own
parent A is never synthesized: the final model has no entry named A,
refuting the claim that every subtest's parent entry exists. -/
theorem c1_counterexample :
    ((lookupA (aggResults c1CexInput) "A/B").map TestResult.isSubTest) = some true ∧
    lookupA (aggResults c1CexInput) "A" = none := by decide

/-- C1 (corrected, amended): for every entry created directly by a
run/pass/fail/skip event for its own subtest name (recognisable by its
non-empty parent link), the parent entry exists once aggregation
completes and lists the subtest among its children; when the stream
holds no pass, fail, skip or output event for the parent name, the
synthesized parent still has status UNKNOWN, duration 0 and empty
output.  Entries synthesized only as placeholder parents of deeper
names (empty parent link) are exempt, as the counterexample forces. -/
theorem c1_parent_linked_for_directly_created (es : List TestEvent) (n : String)
    (r : TestResult) (h : lookupA (aggResults es) n = some r) (hp : r.parentTest ≠ "") :
    ∃ p, lookupA (aggResults es) (parentOf n) = some p ∧ n ∈ p.subTests ∧
      ((∀ e ∈ es, e.test = parentOf n →
          ¬(e.action = "pass" ∨ e.action = "fail" ∨ e.action = "skip" ∨
            e.action = "output")) →
        p.status = "UNKNOWN" ∧ p.duration = 0 ∧ p.output = []) := by
  obtain ⟨r0, hr0, _, _, _, hpt, _, _⟩ := aggResults_entry_status es n r h
  rw [hpt] at hp
  have hinv := modelInv_runPhase es
  obtain ⟨hval, hsl⟩ := hinv.parentVal n r0 hr0 hp
  obtain ⟨p0, hp0, hmem⟩ := hinv.parentLink n r0 hr0 hp
  have hpn0 : parentOf n ≠ "" := by
    rw [← hval]
    exact hp
  refine ⟨{ p0 with output := outputsFor es (parentOf n) }, ?_, hmem, ?_⟩
  · rw [lookupA_aggResults es (parentOf n) hpn0, hp0]
    rfl
  · intro hno
    have hlts : lastTerminalStatus es (parentOf n) = none := by
      unfold lastTerminalStatus
      rw [List.filter_eq_nil_iff.mpr ?_]
      · rfl
      · intro a ha hc
        unfold isTerminalFor at hc
        by_cases hcc : a.test = parentOf n ∧
            (a.action = "pass" ∨ a.action = "fail" ∨ a.action = "skip")
        · rcases hcc.2 with h1 | h1 | h1
          · exact hno a ha hcc.1 (Or.inl h1)
          · exact hno a ha hcc.1 (Or.inr (Or.inl h1))
          · exact hno a ha hcc.1 (Or.inr (Or.inr (Or.inl h1)))
        · rw [if_neg hcc] at hc
          exact Bool.false_ne_true hc
    have hstat := (status_runPhase es (parentOf n) hpn0).1 p0 hp0
    rw [hlts] at hstat
    have hnopf : ∀ ev ∈ es,
        ¬(ev.test = parentOf n ∧ (ev.action = "pass" ∨ ev.action = "fail")) := by
      intro ev hv hc
      rcases hc.2 with h1 | h1
      · exact hno ev hv hc.1 (Or.inl h1)
      · exact hno ev hv hc.1 (Or.inr (Or.inl h1))
    have hdur0 := duration_zero_runPhase es (parentOf n) hnopf p0 hp0
    have hout0 : outputsFor es (parentOf n) = [] := by
      unfold outputsFor
      rw [List.filter_eq_nil_iff.mpr ?_]
      · rfl
      · intro a ha hc
        unfold isOutputFor at hc
        by_cases hcc : a.test = parentOf n ∧ a.action = "output"
        · exact hno a ha hcc.1 (Or.inr (Or.inr (Or.inr hcc.2)))
        · rw [if_neg hcc] at hc
          exact Bool.false_ne_true hc
    refine ⟨by simpa using hstat, hdur0, by simp [hout0]⟩

/-- C1 witness: for the stream with a single run event for A/B, the
parent A exists with UNKNOWN status, zero duration, empty output, and
child list containing A/B. -/
theorem c1_witness :
    ∃ p, lookupA (aggResults c1WitInput) (parentOf "A/B") = some p ∧
      "A/B" ∈ p.subTests ∧
      ((∀ e ∈ c1WitInput, e.test = parentOf "A/B" →
          ¬(e.action = "pass" ∨ e.action = "fail" ∨ e.action = "skip" ∨
            e.action = "output")) →
        p.status = "UNKNOWN" ∧ p.duration = 0 ∧ p.output = []) :=
  c1_parent_linked_for_directly_created c1WitInput "A/B" c1WitChild (by decide) (by decide)

/-- C2 (confirmed): for every pass or fail event, the resulting
duration is the event's elapsed value when positive; otherwise the
event timestamp minus the recorded (non-zero) start time; otherwise
the duration previously stored for that name (0 for a fresh entry). -/
theorem c2_duration_resolution (pre : List TestEvent) (e : TestEvent)
    (hn : e.test ≠ "") (ha : e.action = "pass" ∨ e.action = "fail") :
    ∃ r, lookupA (aggResults (pre ++ [e])) e.test = some r ∧
      r.status = statusOfAction e.action ∧
      r.duration =
        (if 0 < e.elapsed then e.elapsed
         else if lastStartTime pre e.test ≠ 0 then e.time - lastStartTime pre e.test
         else ((lookupA (runPhase pre).results e.test).map TestResult.duration).getD 0) := by
  obtain ⟨r0, hr0, hst, hdur⟩ := duration_after_terminal pre e hn ha
  refine ⟨{ r0 with output := outputsFor (pre ++ [e]) e.test }, ?_, hst, hdur⟩
  rw [lookupA_aggResults _ _ hn, hr0]
  rfl

/-- C2 witness: a run event at time 5 followed by a pass event at time
7 with zero elapsed resolves, by the fallback, to duration 7 - 5. -/
theorem c2_witness :
    ∃ r, lookupA (aggResults (c2WitPre ++ [c2WitEvent])) c2WitEvent.test = some r ∧
      r.status = statusOfAction c2WitEvent.action ∧
      r.duration =
        (if 0 < c2WitEvent.elapsed then c2WitEvent.elapsed
         else if lastStartTime c2WitPre c2WitEvent.test ≠ 0 then
           c2WitEvent.time - lastStartTime c2WitPre c2WitEvent.test
         else ((lookupA (runPhase c2WitPre).results c2WitEvent.test).map
           TestResult.duration).getD 0) :=
  c2_duration_resolution c2WitPre c2WitEvent (by decide) (Or.inl rfl)

/-- C3 (corrected, amended): a malformed line anywhere aborts the whole
run with the wrapped unmarshal error, no matter how many well-formed
lines precede or follow; no partial model is returned. -/
theorem c3_decode_error_aborts (good : List TestEvent) (msg : String)
    (rest : List InputLine) :
    processTestEvents (good.map InputLine.ok ++ InputLine.bad msg :: rest) =
      Except.error ("error unmarshalling JSON: " ++ msg) := by
  unfold processTestEvents
  rw [scanLines_bad]
  rfl

/-- C3 (corrected, counterexample): the produced error value is
identical whether the malformed line is the first or the second line
of the stream, so the error does not carry the offending line's
position. -/
theorem c3_counterexample :
    errOf (processTestEvents [InputLine.bad "bad line"]) =
      some "error unmarshalling JSON: bad line" ∧
    errOf (processTestEvents [InputLine.ok c3OkEvent, InputLine.bad "bad line"]) =
      some "error unmarshalling JSON: bad line" := by decide

/-- C4 (confirmed): every summary counter and the accumulated total
duration are computed over exactly the root-level (non-subtest)
entries of the final model. -/
theorem c4_counters_root_only (es : List TestEvent) :
    (aggregateReport es).totalTests = ((aggResults es).filter isRootKV).length ∧
    (aggregateReport es).passedTests =
      ((aggResults es).filter (rootWithStatus "PASS")).length ∧
    (aggregateReport es).failedTests =
      ((aggResults es).filter (rootWithStatus "FAIL")).length ∧
    (aggregateReport es).skippedTests =
      ((aggResults es).filter (rootWithStatus "SKIP")).length ∧
    (aggregateReport es).totalDuration =
      (((aggResults es).filter isRootKV).map (fun kv => kv.2.duration)).sum := by
  obtain ⟨h1, h2, h3, h4, h5⟩ := aggregateReport_counts es
  rw [List.countP_eq_length_filter] at h1 h2 h3 h4
  exact ⟨h1, h2, h3, h4, h5⟩

/-- C5 (confirmed): the total count equals passed plus failed plus
skipped plus the number of root entries still UNKNOWN when the stream
is exhausted. -/
theorem c5_count_identity (es : List TestEvent) :
    (aggregateReport es).totalTests =
      (aggregateReport es).passedTests + (aggregateReport es).failedTests +
      (aggregateReport es).skippedTests +
      ((aggResults es).filter (rootWithStatus "UNKNOWN")).length := by
  obtain ⟨h1, h2, h3, h4, _⟩ := aggregateReport_counts es
  rw [h1, h2, h3, h4, countP_root_partition (aggResults es) (aggResults_status_closed es)]
  simp only [List.countP_eq_length_filter]

/-- C6 (corrected, counterexample): after run events for A/B/C, A/B and
A (in that order), the entry A exists but its child list is empty even
though its direct child A/B was observed in the stream: A/B had
already been synthesized as a placeholder parent, so its own creation
block - the only place where children are linked - never ran. -/
theorem c6_counterexample :
    ((lookupA (aggResults c6CexInput) "A").map TestResult.subTests) = some [] ∧
    ((lookupA (aggResults c6CexInput) "A/B").map TestResult.parentTest) = some "" ∧
    evRun "A/B" 2 ∈ c6CexInput := by decide

/-- C6 (corrected, amended): an entry's child_names holds no
duplicates, holds only direct children (one nesting level below the
entry's name), holds exactly the direct children whose entries were
created directly by a run/pass/fail/skip event (their parent link
set), rather than synthesized as placeholder parents of deeper names,
and is ordered by discovery: it is a subsequence of the
creation-order sequence of all entry names, so the children appear in
the order of the events that created them (with the no-duplicate and
membership clauses this determines the list uniquely). -/
theorem c6_child_names_exact (es : List TestEvent) (n : String) (r : TestResult)
    (hn : n ≠ "") (h : lookupA (aggResults es) n = some r) :
    r.subTests.Nodup ∧
    (∀ c ∈ r.subTests, hasSlash c = true ∧ parentOf c = n) ∧
    (∀ c, c ∈ r.subTests ↔
      ∃ rc, lookupA (aggResults es) c = some rc ∧ rc.parentTest = n) ∧
    r.subTests.Sublist (createdNames es) := by
  obtain ⟨r0, hr0, _, _, _, _, hsub, _⟩ := aggResults_entry_status es n r h
  have hinv := modelInv_runPhase es
  rw [hsub]
  refine ⟨hinv.childNodup n r0 hr0, ?_, ?_, ?_⟩
  · intro c hc
    obtain ⟨hdir, hslc, _⟩ := hinv.childMem n r0 hr0 c hc
    exact ⟨hslc, hdir⟩
  · intro c
    constructor
    · intro hc
      obtain ⟨hdir, hslc, rc, hrc, hrcp⟩ := hinv.childMem n r0 hr0 c hc
      have hcne : c ≠ "" := by
        intro hx
        rw [hx] at hslc
        exact absurd hslc (by decide)
      refine ⟨{ rc with output := outputsFor es c }, ?_, hrcp⟩
      rw [lookupA_aggResults es c hcne, hrc]
      rfl
    · rintro ⟨rc, hrc, hrcp⟩
      obtain ⟨rc0, hrc0, _, _, _, hpt, _, _⟩ := aggResults_entry_status es c rc hrc
      rw [hpt] at hrcp
      exact hinv.childFull n r0 hr0 c rc0 hrc0 hrcp (by rw [hrcp]; exact hn)
  · have hsl := subTests_sublist_runPhase es n r0 hr0
    rwa [keys_runPhase] at hsl

/-- C6 witness: after one run event for A/B, the entry A has child
list exactly A/B, with no duplicates, only direct children, and in
discovery order. -/
theorem c6_witness :
    c6WitParent.subTests.Nodup ∧
    (∀ c ∈ c6WitParent.subTests, hasSlash c = true ∧ parentOf c = "A") ∧
    (∀ c, c ∈ c6WitParent.subTests ↔
      ∃ rc, lookupA (aggResults c6WitInput) c = some rc ∧ rc.parentTest = "A") ∧
    c6WitParent.subTests.Sublist (createdNames c6WitInput) :=
  c6_child_names_exact c6WitInput "A" c6WitParent (by decide) (by decide)

/-- C7 (corrected, counterexample): with a run event at time 10
followed by a pass event at time 5 carrying no elapsed value, the
fallback subtraction records the negative duration 5 - 10 = -5,
refuting unconditional non-negativity. -/
theorem c7_counterexample :
    ((lookupA (aggResults c7CexInput) "T").map TestResult.duration) = some (-5) ∧
    ¬(0 : ℚ) ≤ -5 := by
  constructor
  · norm_num [c7CexInput, evRun, evPass, aggResults, aggregateReport, runPhase, initState,
      stepEvent, actionStep, creationStep, resolveDuration, startTimeOf, freshResult,
      hasSlash, parentOf, lookupA, setA, updateA, finalize, flushOutputs, countFold,
      isCreatingAction, trimNewline]
  · norm_num

/-- C7 (corrected, amended): for chronologically ordered event streams
(timestamps non-decreasing along the stream, as the aggregator
assumes), every entry of the final model has a non-negative
duration. -/
theorem c7_duration_nonneg_chronological (es : List TestEvent)
    (hord : es.Pairwise (fun a b => a.time ≤ b.time)) (n : String) (r : TestResult)
    (h : lookupA (aggResults es) n = some r) : 0 ≤ r.duration := by
  obtain ⟨r0, hr0, _, hdur, _, _, _, _⟩ := aggResults_entry_status es n r h
  rw [hdur]
  exact duration_nonneg_runPhase es hord n r0 hr0

/-- C7 witness: the chronological stream run at 5 then pass at 7 gives
the entry duration 2, which is non-negative. -/
theorem c7_witness : 0 ≤ c7WitRes.duration :=
  c7_duration_nonneg_chronological c7WitInput (by decide) "T" c7WitRes
    (by (norm_num [c7WitInput, evRun, evPass, aggResults, aggregateReport, runPhase,
      initState, stepEvent, actionStep, creationStep, resolveDuration, startTimeOf,
      freshResult, hasSlash, parentOf, lookupA, setA, updateA, finalize, flushOutputs,
      countFold, isCreatingAction, trimNewline, c7WitRes]) <;> decide)

/-- C8 (confirmed): an entry's output is exactly the stream's output
fragments for that name in arrival order, each stripped of one
trailing newline, with empty fragments omitted; and every entry owes
its existence to some run/pass/fail/skip event (directly or as a
placeholder parent), so output events alone never create an entry. -/
theorem c8_output_association (es : List TestEvent) (n : String) (r : TestResult)
    (hn : n ≠ "") (h : lookupA (aggResults es) n = some r) :
    r.output = outputsFor es n ∧
    ∃ e, e ∈ es ∧ e.test ≠ "" ∧ isCreatingAction e.action ∧
      (e.test = n ∨ (hasSlash e.test = true ∧ parentOf e.test = n)) := by
  rw [lookupA_aggResults es n hn] at h
  cases hrl : lookupA (runPhase es).results n with
  | none =>
    rw [hrl] at h
    exact Option.noConfusion h
  | some r0 =>
    rw [hrl] at h
    simp only [Option.map_some'] at h
    have heq : r = { r0 with output := outputsFor es n } := by simpa using h.symm
    constructor
    · rw [heq]
    · exact entry_created es n r0 hrl

/-- C8 witness: fragments line1 and line2, each with a trailing
newline, plus one bare newline, yield exactly the list containing
line1 and line2. -/
theorem c8_witness :
    c8WitRes.output = outputsFor c8WitInput "T" ∧
    ∃ e, e ∈ c8WitInput ∧ e.test ≠ "" ∧ isCreatingAction e.action ∧
      (e.test = "T" ∨ (hasSlash e.test = true ∧ parentOf e.test = "T")) :=
  c8_output_association c8WitInput "T" c8WitRes (by decide) (by decide)

/-- C9 (confirmed): a stream in which a name receives several terminal
events is not rejected, and the entry's final status is that of the
last terminal event processed. -/
theorem c9_last_write_wins (es : List TestEvent) (n s : String)
    (hn : n ≠ "") (hs : lastTerminalStatus es n = some s) :
    ∃ rd, processTestEvents (es.map InputLine.ok) = Except.ok rd ∧
      ∃ r, lookupA rd.results n = some r ∧ r.status = s := by
  refine ⟨aggregateReport es, processTestEvents_ok es, ?_⟩
  have hstat := status_runPhase es n hn
  cases hrl : lookupA (runPhase es).results n with
  | none =>
    exfalso
    rw [hstat.2 hrl] at hs
    exact Option.noConfusion hs
  | some r0 =>
    refine ⟨{ r0 with output := outputsFor es n }, ?_, ?_⟩
    · show lookupA (aggResults es) n = _
      rw [lookupA_aggResults es n hn, hrl]
      rfl
    · show r0.status = s
      have h2 := hstat.1 r0 hrl
      rw [hs] at h2
      simpa using h2

/-- C9 witness: pass then fail for the same name is accepted and the
final status is FAIL. -/
theorem c9_witness :
    ∃ rd, processTestEvents (c9WitInput.map InputLine.ok) = Except.ok rd ∧
      ∃ r, lookupA rd.results "T" = some r ∧ r.status = "FAIL" :=
  c9_last_write_wins c9WitInput "T" "FAIL" (by decide) (by decide)

/-- C10 (confirmed): after the entry-creation guard has run for a
non-package pass, fail or skip event, the entry for the event's name
is always present, so the terminal handlers never act on a missing
entry, whatever state the preceding events produced. -/
theorem c10_terminal_entry_exists (pre : List TestEvent) (e : TestEvent)
    (hn : e.test ≠ "")
    (ha : e.action = "pass" ∨ e.action = "fail" ∨ e.action = "skip") :
    (lookupA (creationStep (runPhase pre) e).results e.test).isSome = true := by
  apply creationStep_terminal_isSome
  rcases ha with h | h | h
  · exact Or.inr (Or.inl h)
  · exact Or.inr (Or.inr (Or.inl h))
  · exact Or.inr (Or.inr (Or.inr h))

/-- C10 witness: a skip event on the empty state finds its entry
present right after the creation guard. -/
theorem c10_witness :
    (lookupA (creationStep (runPhase []) c10WitEvent).results c10WitEvent.test).isSome
      = true :=
  c10_terminal_entry_exists [] c10WitEvent (by decide) (Or.inr (Or.inr rfl))

end GoTestReport

